import Mathlib

/-!
Verification of the model-reaction engine (schema-driven reactive data model).

The definitions below are a shallow embedding of the engine's final source:
the `ModelManager` with per-field request ids, the `ReactionSystem`, the
async `validateField` pipeline, the `ErrorHandler` and the `EventEmitter`.
JavaScript values are modelled by the inductive `Value`; JS objects used as
string-keyed maps are modelled by association lists; `async`/`await`
suspension is modelled either by passing the validation outcome explicitly
to the post-await continuation, or (where timing matters) by an explicit
event-loop state with microtask and timer queues.
-/

namespace ModelReaction

/-- JavaScript runtime values, as far as the engine observes them:
`undefined`, `null`, booleans, numbers (rationals suffice for every value
the engine manipulates), strings, arrays and plain objects. -/
inductive Value where
  | vUndefined : Value
  | vNull : Value
  | vBool : Bool → Value
  | vNum : ℚ → Value
  | vStr : String → Value
  | vArr : List Value → Value
  | vObj : List (String × Value) → Value
deriving Repr

/-- The `a === b` comparison as `deepEqual` consults it: value equality on
primitives. (`deepEqual` pattern-matches the two-arrays and two-objects
cases before falling through to `===`, so this fallthrough is only reached
on primitives or on mismatched shapes; `===` on references of different
shapes is false.) -/
def primEq : Value → Value → Bool
  | .vUndefined, .vUndefined => true
  | .vNull, .vNull => true
  | .vBool a, .vBool b => a == b
  | .vNum a, .vNum b => a == b
  | .vStr a, .vStr b => a == b
  | _, _ => false

/-- JavaScript truthiness: `undefined`, `null`, `false`, `0` and the empty
string are falsy; every object and array is truthy. -/
def Value.truthy : Value → Bool
  | .vUndefined => false
  | .vNull => false
  | .vBool b => b
  | .vNum q => decide (q ≠ 0)
  | .vStr s => decide (s ≠ "")
  | .vArr _ => true
  | .vObj _ => true

/-- Association-list lookup, modelling `obj[key]` returning `undefined`
when the key is absent (`none` here). -/
def lookupA {α : Type} : List (String × α) → String → Option α
  | [], _ => none
  | (k, v) :: rest, key => if k = key then some v else lookupA rest key

/-- Association-list assignment, modelling `obj[key] = v`: an existing key
keeps its position and gets the new value, a fresh key is appended. -/
def setA {α : Type} : List (String × α) → String → α → List (String × α)
  | [], key, v => [(key, v)]
  | (k, w) :: rest, key, v =>
      if k = key then (k, v) :: rest else (k, w) :: setA rest key v

/-- Association-list deletion, modelling `delete obj[key]`. -/
def removeA {α : Type} : List (String × α) → String → List (String × α)
  | [], _ => []
  | (k, v) :: rest, key =>
      if k = key then removeA rest key else (k, v) :: removeA rest key

/-- Field lookup on an object literal, used by `deepEqual`
(`Object.prototype.hasOwnProperty.call(b, key)` plus the read `b[key]`). -/
def lookupField : List (String × Value) → String → Option Value
  | [], _ => none
  | (k, v) :: rest, key => if k = key then some v else lookupField rest key

mutual

/-- Embedding of the source utility `deepEqual(a, b)`: reference/primitive
equality first (`a === b`), then `null`/non-object rejection, then
element-wise recursion for arrays and key-based recursion for objects
(equal key count, and every key of `a` present in `b` with a deeply equal
value). -/
def deepEqual : Value → Value → Bool
  | .vArr xs, .vArr ys => deepEqualArr xs ys
  | .vObj xs, .vObj ys => (xs.length == ys.length) && deepEqualFields xs ys
  | a, b => primEq a b

/-- Array branch of `deepEqual`: equal length and element-wise equality. -/
def deepEqualArr : List Value → List Value → Bool
  | [], [] => true
  | x :: xs, y :: ys => deepEqual x y && deepEqualArr xs ys
  | _, _ => false

/-- Object branch of `deepEqual`: every key of the first object exists in
the second with a deeply equal value. -/
def deepEqualFields : List (String × Value) → List (String × Value) → Bool
  | [], _ => true
  | (k, v) :: rest, ys =>
      (match lookupField ys k with
       | some w => deepEqual v w
       | none => false) && deepEqualFields rest ys

end

/-- The error kinds of the classifier (`ErrorType` in the source). -/
inductive ETy where
  | validation
  | reaction
  | fieldNotFound
  | dependencyError
  | circularDependency
  | unknown
deriving Repr, DecidableEq

/-- A classifier error record (`AppError` in the source). -/
structure AppError where
  type : ETy
  field : Option String
  message : String
deriving Repr, DecidableEq

/-- A per-field validation error entry (`ValidationError` in the source). -/
structure VError where
  field : String
  rule : String
  message : String
deriving Repr, DecidableEq

/-- Factory `ErrorHandler.createValidationError(field, message)`. -/
def createValidationError (field message : String) : AppError :=
  ⟨.validation, some field, message⟩

/-- Factory `ErrorHandler.createFieldNotFoundError(field)`. -/
def createFieldNotFoundError (field : String) : AppError :=
  ⟨.fieldNotFound, some field, "Field " ++ field ++ " does not exist in the model schema"⟩

/-- Factory `ErrorHandler.createDependencyError(field, dependency)`. -/
def createDependencyError (field dependency : String) : AppError :=
  ⟨.dependencyError, some field, "Dependency field " ++ dependency ++ " is not defined"⟩

/-- Factory `ErrorHandler.createCircularDependencyError(path, field)`. -/
def createCircularDependencyError (path field : String) : AppError :=
  ⟨.circularDependency, some field, "Circular dependency detected: " ++ path ++ " -> " ++ field⟩

/-- The event name the ModelManager forwarder registered in
`setupErrorHandling` emits for a classifier error of the given kind
(`VALIDATION → validation:error`, `REACTION → reaction:error`,
`CIRCULAR_DEPENDENCY → reaction:error`, `FIELD_NOT_FOUND → field:not-found`;
the other kinds have no default forwarder). -/
def forwardedEvent : ETy → Option String
  | .validation => some "validation:error"
  | .reaction => some "reaction:error"
  | .circularDependency => some "reaction:error"
  | .fieldNotFound => some "field:not-found"
  | .dependencyError => none
  | .unknown => none

/-- A recorded event emission on the ModelManager bus: event name and a
description of the payload. -/
structure EmittedEvent where
  name : String
  payloadField : Option String
  payloadValue : Option Value
deriving Repr

/-- The state owned by the `ModelManager` (final source version): committed
`data`, `dirtyData` for rejected candidates, `validationErrors`,
`validationRequestIds`, plus observation logs for emitted bus events and
for every `AppError` passed through `errorHandler.triggerError`. -/
structure EngineState where
  data : List (String × Value)
  dirtyData : List (String × Value)
  validationErrors : List (String × List VError)
  validationRequestIds : List (String × ℚ)
  events : List EmittedEvent
  appErrors : List AppError
deriving Repr

/-- The empty engine state. -/
def EngineState.empty : EngineState := ⟨[], [], [], [], [], []⟩

/-- Reading `this.data[field]` (absent keys read as `undefined`). -/
def EngineState.getData (st : EngineState) (field : String) : Value :=
  (lookupA st.data field).getD .vUndefined

/-- Reading `this.dirtyData[field]` (absent keys read as `undefined`). -/
def EngineState.getDirty (st : EngineState) (field : String) : Value :=
  (lookupA st.dirtyData field).getD .vUndefined

/-- The effect of `errorHandler.triggerError(e)` as observed through the
ModelManager: the error is recorded, and the default listeners installed by
`setupErrorHandling` re-emit it on the event bus under the forwarded name. -/
def triggerAppError (st : EngineState) (e : AppError) : EngineState :=
  { st with
    appErrors := st.appErrors ++ [e]
    events := st.events ++
      (match forwardedEvent e.type with
       | some name => [⟨name, e.field, none⟩]
       | none => []) }

/-- A request by `handleValidField` to fan out reactions: the changed field
together with the propagation stack passed to
`reactionSystem.triggerReactions`. -/
structure TriggerIntent where
  field : String
  stack : List String
deriving Repr, DecidableEq

/-- Embedding of `ModelManager.handleValidField` (final source): if the new
value deep-differs from `data[field]`, commit it, delete `dirtyData[field]`
only when its current value is truthy (the source guard is
`if (this.dirtyData[field])`), emit `field:change`, and, unless reactions
are suppressed, ask the reaction system to fan out with the propagation
stack. If the value is deep-equal, do nothing at all. -/
def handleValidField (st : EngineState) (field : String) (value : Value)
    (reactionStack : List String) (suppressReactions : Bool) :
    EngineState × List TriggerIntent :=
  let valueChanged := !(deepEqual (st.getData field) value)
  if valueChanged then
    let st1 := { st with data := setA st.data field value }
    let st2 :=
      if (st1.getDirty field).truthy then
        { st1 with dirtyData := removeA st1.dirtyData field }
      else st1
    let st3 := { st2 with events := st2.events ++ [⟨"field:change", some field, some value⟩] }
    if !suppressReactions then (st3, [⟨field, reactionStack⟩]) else (st3, [])
  else (st, [])

/-- Embedding of `ModelManager.handleInvalidField`: store the rejected
candidate in `dirtyData`. -/
def handleInvalidField (st : EngineState) (field : String) (value : Value) : EngineState :=
  { st with dirtyData := setA st.dirtyData field value }

/-- The request-id generator of `ModelManager.updateField`:
`Date.now() + Math.random()` with the two draws passed explicitly. -/
def genRequestId (now rand : ℚ) : ℚ := now + rand

/-- Embedding of the part of `ModelManager.updateField` that runs after
`await this.validateSingleField(...)` returns with verdict `isValid`:
re-read `validationRequestIds[field]`; on a ticket mismatch return `false`
immediately without touching state; otherwise dispatch to
`handleValidField` or `handleInvalidField` and return the verdict. -/
def updateFieldPost (st : EngineState) (field : String) (transformedValue : Value)
    (requestId : ℚ) (isValid : Bool) (reactionStack : List String)
    (suppressReactions : Bool) : EngineState × List TriggerIntent × Bool :=
  if lookupA st.validationRequestIds field ≠ some requestId then
    (st, [], false)
  else if isValid then
    let (st1, intents) := handleValidField st field transformedValue reactionStack suppressReactions
    (st1, intents, true)
  else
    (handleInvalidField st field transformedValue, [], false)

/-- A bus subscriber, modelled by what happens when it is invoked: normal
return, or a thrown exception carrying a message. -/
def Subscriber : Type := Value → Except String Unit

/-- Embedding of the body of `EventEmitter.emit`'s
`this.events[event].forEach((callback) => callback(data))`: run the
subscribers left to right; a normal return records the subscriber's index
and continues; a thrown exception escapes the `forEach` immediately (there
is no `try`/`catch` in the source), so later subscribers do not run.
Returns the indices invoked (in invocation order, starting at `idx`) and
the propagated exception, if any. -/
def emitFrom (idx : ℕ) : List Subscriber → Value → List ℕ × Option String
  | [], _ => ([], none)
  | cb :: rest, d =>
      match cb d with
      | .ok _ =>
          let r := emitFrom (idx + 1) rest d
          (idx :: r.1, r.2)
      | .error m => ([idx], some m)

/-- The event bus: a record from event name to subscriber list. -/
structure EventEmitter where
  events : List (String × List Subscriber)

/-- Embedding of `EventEmitter.emit(event, data)`: if the event has a
subscriber list, run it with `emitFrom`; otherwise do nothing. -/
def EventEmitter.emit (em : EventEmitter) (event : String) (d : Value) :
    List ℕ × Option String :=
  match lookupA em.events event with
  | some subs => emitFrom 0 subs d
  | none => ([], none)

/-- The listener table of the `ErrorHandler`: one registration-ordered list
of listeners (identified by numbers) per error kind, mirroring the record
literal initializing `errorListeners` in the source. -/
structure ErrorListeners where
  validationLs : List ℕ
  reactionLs : List ℕ
  fieldNotFoundLs : List ℕ
  dependencyErrorLs : List ℕ
  circularLs : List ℕ
  unknownLs : List ℕ
deriving Repr

/-- Reading `this.errorListeners[type]`. -/
def ErrorListeners.listenersFor (h : ErrorListeners) : ETy → List ℕ
  | .validation => h.validationLs
  | .reaction => h.reactionLs
  | .fieldNotFound => h.fieldNotFoundLs
  | .dependencyError => h.dependencyErrorLs
  | .circularDependency => h.circularLs
  | .unknown => h.unknownLs

/-- Embedding of `ErrorHandler.triggerError(error)`: invoke every listener
registered for the record's exact kind (a `forEach`, modelled as a fold
appending one invocation at a time), then every listener registered for
the catch-all `UNKNOWN` kind. Returns the invocation log in order. -/
def triggerErrorRun (h : ErrorListeners) (e : AppError) : List (ℕ × AppError) :=
  let log1 := (h.listenersFor e.type).foldl (fun acc l => acc ++ [(l, e)]) []
  (h.listenersFor .unknown).foldl (fun acc l => acc ++ [(l, e)]) log1

/-- Undefined check (`val === undefined`). -/
def Value.isUndef : Value → Bool
  | .vUndefined => true
  | _ => false

/-- What a validator predicate does on a given candidate value: return a
boolean synchronously, throw synchronously, or return a promise that
settles (fulfilled or rejected) after `settleAt` milliseconds. -/
inductive PredOutcome where
  | syncResult : Bool → PredOutcome
  | syncThrow : String → PredOutcome
  | asyncResolves : Bool → ℕ → PredOutcome
  | asyncRejects : String → ℕ → PredOutcome
deriving Repr

/-- A validator (source `Validator`): rule tag, human message, and an
optional predicate described by its behavior on each value. -/
structure ValidatorE where
  type : String
  message : String
  validate : Option (Value → PredOutcome)

/-- Result of running one validator: the verdict, the error entries pushed
into `errors[field]`, the classifier errors dispatched, and how many
timeout timers were set and cleared along the way. -/
structure ExecResult where
  ok : Bool
  errs : List VError
  appErrs : List AppError
  timersSet : ℕ
  timersCleared : ℕ
deriving Repr, DecidableEq

/-- Effect of the source helper `handleValidationError`: push
`{field, rule: validator.type, message}` and dispatch a `VALIDATION`
classifier error with the validator's message. -/
def handleValidationErrorFx (field : String) (v : ValidatorE) : List VError × List AppError :=
  ([⟨field, v.type, v.message⟩], [createValidationError field v.message])

/-- Effect of the source helper `handleExceptionError`: push
`{field, rule: validation_error, message: Validation failed: <msg>}` and
dispatch a `VALIDATION` classifier error with the same message. -/
def handleExceptionErrorFx (field msg : String) : List VError × List AppError :=
  ([⟨field, "validation_error", "Validation failed: " ++ msg⟩],
   [createValidationError field ("Validation failed: " ++ msg)])

/-- Embedding of `executeValidator` (final async pipeline): an absent
predicate is valid; a synchronous result is judged directly; a promise
races a `setTimeout(timeout)` that rejects with
`Validation timeout: <field>`; a promise settling after the timeout loses
the race. The timer is cleared right after the race on the success path
and inside the `catch` on the failure path, so timers set and timers
cleared always balance. -/
def executeValidator (v : ValidatorE) (value : Value) (field : String) (timeout : ℕ) :
    ExecResult :=
  match v.validate with
  | none => ⟨true, [], [], 0, 0⟩
  | some f =>
    match f value with
    | .syncThrow msg =>
        let r := handleExceptionErrorFx field msg
        ⟨false, r.1, r.2, 0, 0⟩
    | .syncResult b =>
        if b then ⟨true, [], [], 0, 0⟩
        else
          let r := handleValidationErrorFx field v
          ⟨false, r.1, r.2, 0, 0⟩
    | .asyncResolves b settleAt =>
        if settleAt ≤ timeout then
          if b then ⟨true, [], [], 1, 1⟩
          else
            let r := handleValidationErrorFx field v
            ⟨false, r.1, r.2, 1, 1⟩
        else
          let r := handleExceptionErrorFx field ("Validation timeout: " ++ field)
          ⟨false, r.1, r.2, 1, 1⟩
    | .asyncRejects msg settleAt =>
        if settleAt ≤ timeout then
          let r := handleExceptionErrorFx field msg
          ⟨false, r.1, r.2, 1, 1⟩
        else
          let r := handleExceptionErrorFx field ("Validation timeout: " ++ field)
          ⟨false, r.1, r.2, 1, 1⟩

/-- Fail-fast branch of `validateField`: run validators sequentially and
stop at the first invalid result. -/
def execValidatorsFF : List ValidatorE → Value → String → ℕ →
    Bool × List VError × List AppError × ℕ × ℕ
  | [], _, _, _ => (true, [], [], 0, 0)
  | v :: rest, value, field, timeout =>
      let r := executeValidator v value field timeout
      if r.ok then
        let t := execValidatorsFF rest value field timeout
        (t.1, r.errs ++ t.2.1, r.appErrs ++ t.2.2.1,
         r.timersSet + t.2.2.2.1, r.timersCleared + t.2.2.2.2)
      else (false, r.errs, r.appErrs, r.timersSet, r.timersCleared)

/-- Aggregate branch of `validateField`: every validator runs
(`Promise.all`, linearized here in validator order), every failure
contributes its records, and the verdict is the conjunction. -/
def execValidatorsAll : List ValidatorE → Value → String → ℕ →
    Bool × List VError × List AppError × ℕ × ℕ
  | [], _, _, _ => (true, [], [], 0, 0)
  | v :: rest, value, field, timeout =>
      let r := executeValidator v value field timeout
      let t := execValidatorsAll rest value field timeout
      (r.ok && t.1, r.errs ++ t.2.1, r.appErrs ++ t.2.2.1,
       r.timersSet + t.2.2.2.1, r.timersCleared + t.2.2.2.2)

/-- Embedding of the final `validateField(options)`: no declared validators
means valid; otherwise dispatch on the `failFast` flag. Returns the
verdict, the error entries for `errors[field]`, the dispatched classifier
errors, and the timer balance. -/
def validateFieldRun (validators : Option (List ValidatorE)) (value : Value)
    (field : String) (timeout : ℕ) (failFast : Bool) :
    Bool × List VError × List AppError × ℕ × ℕ :=
  match validators with
  | none => (true, [], [], 0, 0)
  | some vs =>
      if failFast then execValidatorsFF vs value field timeout
      else execValidatorsAll vs value field timeout

/-- A reaction (source `Reaction`): identity (JS object identity, used by
the `Map<Reaction, …>` de-duplication and debounce keys), dependency field
names, the pure compute function over the gathered dependency values, and
an optional action callback (identified by a number; its invocations are
logged). -/
structure ReactionE where
  rid : ℕ
  fields : List String
  computed : List (String × Value) → Value
  action : Option ℕ

/-- A field schema (source `FieldSchema`): declared kind, validators,
default, transform, and reactions (the source accepts one reaction or an
array; both are normalized to a list here). -/
structure FieldSchemaE where
  kind : String
  validator : Option (List ValidatorE)
  defaultVal : Option Value
  transform : Option (Value → Value)
  reaction : List ReactionE

/-- A model schema: declared fields in declaration order. -/
abbrev SchemaE : Type := List (String × FieldSchemaE)

/-- Embedding of `ReactionSystem.collectReactions`: walk the schema in
order and register, for every reaction of owner `o` and every dependency
field `d` in its list, the entry `(d, o, reaction)` (the source pushes
`{field: o, reaction}` onto the list indexed under `d`). -/
def collectReactions (schema : SchemaE) : List (String × String × ReactionE) :=
  schema.flatMap (fun e => e.2.reaction.flatMap (fun r => r.fields.map (fun d => (d, e.1, r))))

/-- Reading `this.reactionDeps.get(dep)`: the registered `(owner, reaction)`
pairs depending on `dep`, in registration order. -/
def depsFor (schema : SchemaE) (dep : String) : List (String × ReactionE) :=
  (collectReactions schema).filterMap (fun e => if e.1 = dep then some e.2 else none)

/-- One `Map.set(reaction, field)` step of the batch de-duplication in
`triggerReactionsForFields`: an existing key keeps its position and gets
the new value; a fresh key is appended. Keys are compared by reaction
identity. -/
def mapSetR (m : List (ReactionE × String)) (r : ReactionE) (owner : String) :
    List (ReactionE × String) :=
  if m.any (fun p => p.1.rid == r.rid) then
    m.map (fun p => if p.1.rid == r.rid then (r, owner) else p)
  else m ++ [(r, owner)]

/-- The `reactionsToTrigger` map of `triggerReactionsForFields`: for each
changed field in order, insert every dependent reaction, de-duplicating by
reaction identity. -/
def reactionsToTrigger (schema : SchemaE) (changedFields : List String) :
    List (ReactionE × String) :=
  changedFields.foldl
    (fun m c => (depsFor schema c).foldl (fun m2 p => mapSetR m2 p.2 p.1) m) []

/-- The scheduling decision loop of `triggerReactionsForFields`, observed
without executing the reactions: every de-duplicated entry whose owner
already appears on the propagation stack is refused with a
`CIRCULAR_DEPENDENCY` error built from the joined stack and the owner; the
others are scheduled. Returns the scheduled `(owner, reaction)` list and
the refusal errors, in loop order. -/
def triggerSchedule (schema : SchemaE) (changedFields : List String)
    (reactionStack : List String) : List (String × ReactionE) × List AppError :=
  (reactionsToTrigger schema changedFields).foldl
    (fun acc p =>
      if p.2 ∈ reactionStack then
        (acc.1, acc.2 ++
          [createCircularDependencyError (String.intercalate " -> " reactionStack) p.2])
      else (acc.1 ++ [(p.2, p.1)], acc.2))
    ([], [])

/-- Per-model engine configuration: the schema plus the options consulted
on the verified paths (`debounceReactions`, `asyncValidationTimeout`,
`failFast`), and the oracle stream of `Date.now() + Math.random()` draws
consumed by successive `updateField` calls. -/
structure RunConfig where
  schema : SchemaE
  debounce : ℕ
  timeout : ℕ
  failFast : Bool
  idOf : ℕ → ℚ

/-- Engine state threaded by the sequential runner: the ModelManager state,
the pending debounce timers of the reaction system (reaction identity,
owner, propagation stack), the count of request-id draws consumed, and the
log of invoked action callbacks with the computed value each received. -/
structure RunState where
  st : EngineState
  timers : List (ℕ × String × List String)
  idCounter : ℕ
  actionLog : List (ℕ × Value)

/-- Initial run state: `initializeDefaults` commits every declared default
into `data`; everything else starts empty. -/
def initRun (cfg : RunConfig) : RunState :=
  ⟨{ EngineState.empty with
      data := cfg.schema.foldl
        (fun acc e =>
          match e.2.defaultVal with
          | some v => setA acc e.1 v
          | none => acc) [] },
   [], 0, []⟩

/-- The whole of one `updateField(field, value, options)` call linearized
(no interleaved concurrent call, so the post-await ticket re-read matches):
schema lookup with `FIELD_NOT_FOUND` on a miss, request-id draw and store,
error-list reset, transform, the validation pipeline (recording its error
entries and dispatching its classifier errors), then the post-await logic
`updateFieldPost`. Reaction fan-out is returned as trigger intents. -/
def updateFieldCore (cfg : RunConfig) (rs : RunState) (field : String) (value : Value)
    (stack : List String) (suppress : Bool) : RunState × List TriggerIntent × Bool :=
  match lookupA cfg.schema field with
  | none =>
      ({ rs with st := triggerAppError rs.st (createFieldNotFoundError field) }, [], false)
  | some fs =>
      let reqId := cfg.idOf rs.idCounter
      let st0 := { rs.st with
        validationRequestIds := setA rs.st.validationRequestIds field reqId,
        validationErrors := setA rs.st.validationErrors field [] }
      let tv := match fs.transform with
        | some t => t value
        | none => value
      let vr := validateFieldRun fs.validator tv field cfg.timeout cfg.failFast
      let newErrs := setA st0.validationErrors field
        ((lookupA st0.validationErrors field).getD [] ++ vr.2.1)
      let st1 := vr.2.2.1.foldl triggerAppError { st0 with validationErrors := newErrs }
      let r := updateFieldPost st1 field tv reqId vr.1 stack suppress
      ({ rs with st := r.1, idCounter := rs.idCounter + 1 }, r.2.1, r.2.2)

/-- Gathering dependency values in `processReaction`: for each dependency
field, read `getValue` (the manager's `data`); an `undefined` read records
a `DEPENDENCY_ERROR` against the owner and passes `undefined` in that
slot; execution continues. -/
def gatherDeps (st : EngineState) (owner : String) (flds : List String) :
    List (String × Value) × EngineState :=
  flds.foldl
    (fun acc f =>
      let v := st.getData f
      if v.isUndef then
        (acc.1 ++ [(f, Value.vUndefined)],
         triggerAppError acc.2 (createDependencyError owner f))
      else (acc.1 ++ [(f, v)], acc.2))
    ([], st)

/-- A pending activity of the cooperative engine, named after the source
method it embodies: a field update (`updateField`), the scheduling loop of
`triggerReactionsForFields` over the de-duplicated entries, or one
reaction execution (`processReaction`). -/
inductive Job where
  | update : String → Value → List String → Bool → Job
  | triggerList : List (ReactionE × String) → List String → List String → Job
  | process : String → ReactionE → List String → Job

/-- Fuel-based interpreter for the engine with synchronous validators and
awaits on already-settled promises taken as immediate continuations (the
single-chain case, where the event loop has no other pending work, so this
linearization coincides with the microtask order). Each step consumes one
unit of fuel; `none` means the fuel ran out.

The cases mirror the source: an `update` runs `updateFieldCore` and then
interprets its fan-out intent through `triggerReactionsForFields`; a
`triggerList` step refuses an owner already on the propagation stack with
a `CIRCULAR_DEPENDENCY` error and otherwise performs `scheduleReaction`
(clear any pending debounce timer for this reaction, then either set a
fresh timer or process immediately); a `process` gathers dependency
values, computes, commits through an inner `update` with the extended
stack, and finally invokes the action callback. -/
def execRS : ℕ → RunConfig → RunState → Job → Option (RunState × Bool)
  | 0, _, _, _ => none
  | fuel + 1, cfg, rs, .update field value stack suppress =>
      let r := updateFieldCore cfg rs field value stack suppress
      match r.2.1 with
      | [] => some (r.1, r.2.2)
      | intent :: _ =>
          match execRS fuel cfg r.1
              (.triggerList (reactionsToTrigger cfg.schema [intent.field])
                [intent.field] intent.stack) with
          | none => none
          | some (rs2, _) => some (rs2, r.2.2)
  | _ + 1, _, rs, .triggerList [] _ _ => some (rs, true)
  | fuel + 1, cfg, rs, .triggerList ((r, owner) :: rest) changedFields stack =>
      if owner ∈ stack then
        let e := createCircularDependencyError (String.intercalate " -> " stack) owner
        let rs2 := { rs with st := triggerAppError rs.st e }
        execRS fuel cfg rs2 (.triggerList rest changedFields stack)
      else
        let rs2 := { rs with timers := rs.timers.filter (fun t => !(t.1 == r.rid)) }
        if cfg.debounce > 0 then
          let rs3 := { rs2 with timers := rs2.timers ++ [(r.rid, owner, stack ++ changedFields)] }
          execRS fuel cfg rs3 (.triggerList rest changedFields stack)
        else
          match execRS fuel cfg rs2 (.process owner r (stack ++ changedFields)) with
          | none => none
          | some (rs3, _) => execRS fuel cfg rs3 (.triggerList rest changedFields stack)
  | fuel + 1, cfg, rs, .process owner r stack2 =>
      let g := gatherDeps rs.st owner r.fields
      let cval := r.computed g.1
      match execRS fuel cfg { rs with st := g.2 } (.update owner cval stack2 false) with
      | none => none
      | some (rs2, _) =>
          match r.action with
          | some aid => some ({ rs2 with actionLog := rs2.actionLog ++ [(aid, cval)] }, true)
          | none => some (rs2, true)

/-- Phase 1 of `setFields`: each entry updated via `updateField` with
`suppressReactions: true` (the `Promise.all` is linearized in entry order;
distinct keys make the per-field runs independent). Returns the final
state, every trigger intent produced by the per-field updates (none, since
suppression short-circuits the fan-out), and the conjunction of the
per-field verdicts. -/
def batchUpdates (cfg : RunConfig) :
    RunState → List (String × Value) → RunState × List TriggerIntent × Bool
  | rs, [] => (rs, [], true)
  | rs, (f, v) :: rest =>
      let r := updateFieldCore cfg rs f v [] true
      let t := batchUpdates cfg r.1 rest
      (t.1, r.2.1 ++ t.2.1, r.2.2 && t.2.2)

/-- Embedding of `setFields(fields)`: run every per-field update with
reactions suppressed, then ask the reaction graph to batch-trigger for the
union of input keys (`Object.keys(fields)`, not only the changed fields)
with the empty propagation stack, and return the conjunction of verdicts.
The batch trigger is observed through `triggerSchedule`. -/
def setFieldsRun (cfg : RunConfig) (rs : RunState) (fields : List (String × Value)) :
    RunState × (List (String × ReactionE) × List AppError) × Bool :=
  let b := batchUpdates cfg rs fields
  (b.1, triggerSchedule cfg.schema (fields.map Prod.fst) [], b.2.2)

section AssocLemmas

theorem lookupA_setA_self {α : Type} (m : List (String × α)) (k : String) (v : α) :
    lookupA (setA m k v) k = some v := by
  induction m with
  | nil => simp [setA, lookupA]
  | cons hd tl ih =>
      by_cases h : hd.1 = k
      · simp [setA, h, lookupA]
      · simp [setA, h, lookupA, ih]

theorem lookupA_setA_ne {α : Type} (m : List (String × α)) (k k' : String) (v : α)
    (h : k' ≠ k) : lookupA (setA m k v) k' = lookupA m k' := by
  induction m with
  | nil => simp [setA, lookupA, Ne.symm h]
  | cons hd tl ih =>
      obtain ⟨a, b⟩ := hd
      by_cases hk : a = k
      · subst hk
        simp [setA, lookupA, Ne.symm h]
      · by_cases hk' : a = k'
        · simp [setA, hk, lookupA, hk', h]
        · simp [setA, hk, lookupA, hk', ih]

theorem lookupA_removeA_self {α : Type} (m : List (String × α)) (k : String) :
    lookupA (removeA m k) k = none := by
  induction m with
  | nil => simp [removeA, lookupA]
  | cons hd tl ih =>
      by_cases h : hd.1 = k
      · simp [removeA, h, ih]
      · simp [removeA, h, lookupA, ih]

end AssocLemmas

/-- C1 (counterexample). A superseded `setField` call whose own validation
verdict is `true` (the request-id store no longer holds its ticket when
its validation await returns) returns `false`, not the boolean its own
validation computed: the source's race check is `return false`, not
`return isValid`. -/
theorem c1_counterexample :
    lookupA ({ EngineState.empty with
        validationRequestIds := [("f", (5 : ℚ))] } : EngineState).validationRequestIds "f"
      ≠ some 3 ∧
    (updateFieldPost { EngineState.empty with validationRequestIds := [("f", (5 : ℚ))] }
        "f" (.vStr "v") 3 true [] false).2.2 = false := by
  constructor
  · decide
  · rfl

/-- C1 (amended). For every pair of overlapping `setField` calls on a field
where a later call has updated the request id before the earlier call's
validation await returns, the earlier (superseded) call mutates none of
`data`, `dirty`, or `errors` — it leaves the whole state untouched and
schedules no reactions — and returns `false` unconditionally, regardless
of the verdict its own validation computed. -/
theorem c1_superseded_no_mutation_returns_false (st : EngineState) (field : String)
    (tv : Value) (ticket : ℚ) (verdict : Bool) (stack : List String) (suppress : Bool)
    (hsup : lookupA st.validationRequestIds field ≠ some ticket) :
    updateFieldPost st field tv ticket verdict stack suppress = (st, [], false) := by
  simp [updateFieldPost, hsup]

/-- C1 (witness). Concrete instantiation of the superseded-call theorem. -/
theorem c1_witness :
    updateFieldPost { EngineState.empty with validationRequestIds := [("g", (2 : ℚ))] }
      "g" (.vNum 1) 7 true [] false
      = ({ EngineState.empty with validationRequestIds := [("g", (2 : ℚ))] }, [], false) :=
  c1_superseded_no_mutation_returns_false _ "g" (.vNum 1) 7 true [] false (by decide)

/-- C2 (counterexample). A valid latest `setField` whose post-transform
candidate differs from the committed value commits the candidate and
returns `true`, but when the previously stored dirty value is falsy
(here `0`) the dirty entry survives: the source guards the deletion with
`if (this.dirtyData[field])`, a truthiness test. The claim's requirement
that `dirty[field]` end up absent fails. -/
theorem c2_counterexample :
    lookupA (updateFieldPost
        ⟨[("age", .vNum 18)], [("age", .vNum 0)], [], [("age", (1 : ℚ))], [], []⟩
        "age" (.vNum 20) 1 true [] false).1.dirtyData "age" = some (.vNum 0) ∧
    (updateFieldPost
        ⟨[("age", .vNum 18)], [("age", .vNum 0)], [], [("age", (1 : ℚ))], [], []⟩
        "age" (.vNum 20) 1 true [] false).1.getData "age" = .vNum 20 ∧
    (updateFieldPost
        ⟨[("age", .vNum 18)], [("age", .vNum 0)], [], [("age", (1 : ℚ))], [], []⟩
        "age" (.vNum 20) 1 true [] false).2.2 = true := by
  refine ⟨rfl, rfl, rfl⟩

/-- C2 (amended). For every declared field and latest `setField` completing
with verdict `V`: if `V` is false, `data` is untouched and `dirty[field]`
holds the post-transform candidate. If `V` is true and the candidate
deep-equals `data[field]`, the state is left entirely unchanged (in
particular a stale dirty entry survives). If `V` is true and the candidate
deep-differs, `data[field]` becomes the candidate and `dirty[field]` is
deleted only when its stored value is truthy; a falsy stored dirty value
(`0`, the empty string, `false`) survives the commit. -/
theorem handleValidField_unchanged (st : EngineState) (f : String) (v : Value)
    (stk : List String) (sup : Bool) (h : deepEqual (st.getData f) v = true) :
    handleValidField st f v stk sup = (st, []) := by
  simp [handleValidField, h]

theorem handleValidField_changed (st : EngineState) (f : String) (v : Value)
    (stk : List String) (sup : Bool) (h : deepEqual (st.getData f) v = false) :
    (handleValidField st f v stk sup).1 =
      { st with
          data := setA st.data f v,
          dirtyData := if (st.getDirty f).truthy then removeA st.dirtyData f else st.dirtyData,
          events := st.events ++ [⟨"field:change", some f, some v⟩] } := by
  cases hd : ((lookupA st.dirtyData f).getD Value.vUndefined).truthy <;>
    cases sup <;>
      simp [handleValidField, h, hd, EngineState.getDirty]

theorem c2_dichotomy_as_implemented (st : EngineState) (field : String) (tv : Value)
    (ticket : ℚ) (stack : List String) (suppress : Bool)
    (hlatest : lookupA st.validationRequestIds field = some ticket) :
    ((updateFieldPost st field tv ticket false stack suppress).1.data = st.data ∧
      lookupA (updateFieldPost st field tv ticket false stack suppress).1.dirtyData field
        = some tv) ∧
    (deepEqual (st.getData field) tv = true →
      (updateFieldPost st field tv ticket true stack suppress).1 = st) ∧
    (deepEqual (st.getData field) tv = false →
      (updateFieldPost st field tv ticket true stack suppress).1.getData field = tv ∧
      ((st.getDirty field).truthy = true →
        lookupA (updateFieldPost st field tv ticket true stack suppress).1.dirtyData field
          = none) ∧
      ((st.getDirty field).truthy = false →
        (updateFieldPost st field tv ticket true stack suppress).1.dirtyData
          = st.dirtyData)) := by
  have hpostTrue : (updateFieldPost st field tv ticket true stack suppress).1
      = (handleValidField st field tv stack suppress).1 := by
    simp [updateFieldPost, hlatest]
  refine ⟨⟨?_, ?_⟩, ?_, ?_⟩
  · simp [updateFieldPost, hlatest, handleInvalidField]
  · simp [updateFieldPost, hlatest, handleInvalidField, lookupA_setA_self]
  · intro hEq
    rw [hpostTrue, handleValidField_unchanged st field tv stack suppress hEq]
  · intro hNe
    rw [hpostTrue, handleValidField_changed st field tv stack suppress hNe]
    refine ⟨?_, ?_, ?_⟩
    · simp [EngineState.getData, lookupA_setA_self]
    · intro htruthy
      simp [htruthy, lookupA_removeA_self]
    · intro hfalsy
      simp [hfalsy]

/-- C2 (witness). Concrete instantiation of the implemented dichotomy: a
truthy dirty entry is removed by a valid changed commit, and an invalid
set stores the candidate in dirty. -/
theorem c2_witness :
    lookupA (updateFieldPost
        ⟨[("n", .vNum 1)], [("n", .vNum 7)], [], [("n", (4 : ℚ))], [], []⟩
        "n" (.vNum 2) 4 true [] false).1.dirtyData "n" = none ∧
    lookupA (updateFieldPost
        ⟨[("n", .vNum 1)], [("n", .vNum 7)], [], [("n", (4 : ℚ))], [], []⟩
        "n" (.vNum 3) 4 false [] false).1.dirtyData "n" = some (.vNum 3) := by
  constructor
  · exact ((c2_dichotomy_as_implemented
      ⟨[("n", .vNum 1)], [("n", .vNum 7)], [], [("n", (4 : ℚ))], [], []⟩
      "n" (.vNum 2) 4 [] false rfl).2.2 rfl).2.1 rfl
  · exact (c2_dichotomy_as_implemented
      ⟨[("n", .vNum 1)], [("n", .vNum 7)], [], [("n", (4 : ℚ))], [], []⟩
      "n" (.vNum 3) 4 [] false rfl).1.2

/-- The draw `Date.now() + Math.random() = 1000 + 0.9 = 1000.9`. -/
def idDraw1 : ℚ := ⟨10009, 10, by decide, by decide⟩

/-- The draw `Date.now() + Math.random() = 1000 + 0.1 = 1000.1`. -/
def idDraw2 : ℚ := ⟨10001, 10, by decide, by decide⟩

/-- C9 (counterexample). The request-id store does not hold monotonically
increasing integers: with `Date.now()` returning the same millisecond for
two successive `setField` calls on the same field and `Math.random()`
drawing `0.9` then `0.1`, the id stored by the second call
(`1000.1`) is strictly smaller than the one stored by the first
(`1000.9`), and neither is an integer. -/
theorem c9_counterexample :
    lookupA (updateFieldCore
        ⟨[("f", ⟨"string", none, none, none, []⟩)], 0, 5000, false,
          fun n => if n = 0 then idDraw1 else idDraw2⟩
        (initRun ⟨[("f", ⟨"string", none, none, none, []⟩)], 0, 5000, false,
          fun n => if n = 0 then idDraw1 else idDraw2⟩)
        "f" (.vStr "a") [] false).1.st.validationRequestIds "f" = some idDraw1 ∧
    lookupA (updateFieldCore
        ⟨[("f", ⟨"string", none, none, none, []⟩)], 0, 5000, false,
          fun n => if n = 0 then idDraw1 else idDraw2⟩
        (updateFieldCore
          ⟨[("f", ⟨"string", none, none, none, []⟩)], 0, 5000, false,
            fun n => if n = 0 then idDraw1 else idDraw2⟩
          (initRun ⟨[("f", ⟨"string", none, none, none, []⟩)], 0, 5000, false,
            fun n => if n = 0 then idDraw1 else idDraw2⟩)
          "f" (.vStr "a") [] false).1
        "f" (.vStr "b") [] false).1.st.validationRequestIds "f" = some idDraw2 ∧
    idDraw2 < idDraw1 ∧ idDraw1.den ≠ 1 := by
  refine ⟨by decide, by decide, by decide, by decide⟩

theorem triggerAppError_requestIds (st : EngineState) (e : AppError) :
    (triggerAppError st e).validationRequestIds = st.validationRequestIds := rfl

theorem foldl_triggerAppError_requestIds (es : List AppError) (st : EngineState) :
    (es.foldl triggerAppError st).validationRequestIds = st.validationRequestIds := by
  induction es generalizing st with
  | nil => rfl
  | cons e tl ih => simp [List.foldl, ih, triggerAppError_requestIds]

theorem handleValidField_requestIds (st : EngineState) (f : String) (v : Value)
    (stk : List String) (sup : Bool) :
    (handleValidField st f v stk sup).1.validationRequestIds = st.validationRequestIds := by
  simp only [handleValidField]
  split
  · split
    · split <;> rfl
    · split <;> rfl
  · rfl

theorem updateFieldPost_requestIds (st : EngineState) (f : String) (tv : Value)
    (tk : ℚ) (vd : Bool) (stk : List String) (sup : Bool) :
    (updateFieldPost st f tv tk vd stk sup).1.validationRequestIds
      = st.validationRequestIds := by
  simp only [updateFieldPost]
  split
  · rfl
  · split
    · exact handleValidField_requestIds st f tv stk sup
    · rfl

/-- C9 (amended). The request-id store maps a field to the number
`Date.now() + Math.random()` drawn at the start of its latest `updateField`
call (not necessarily an integer, and not guaranteed larger than the
previous draw), and supersession is detected by ticket equality alone: the
post-await phase returns the call's own verdict exactly when the stored id
still equals its ticket, and `false` otherwise. -/
theorem c9_request_ids_equality_discipline (cfg : RunConfig) (rs : RunState)
    (field : String) (v : Value) (stack : List String) (suppress : Bool)
    (fs : FieldSchemaE) (hschema : lookupA cfg.schema field = some fs)
    (nowS randS : ℕ → ℚ)
    (hgen : cfg.idOf = fun n => genRequestId (nowS n) (randS n)) :
    lookupA (updateFieldCore cfg rs field v stack suppress).1.st.validationRequestIds field
      = some (genRequestId (nowS rs.idCounter) (randS rs.idCounter)) ∧
    (∀ (st : EngineState) (tv : Value) (ticket : ℚ) (verdict : Bool),
      (updateFieldPost st field tv ticket verdict stack suppress).2.2
        = if lookupA st.validationRequestIds field = some ticket then verdict else false) := by
  constructor
  · have h1 : (updateFieldCore cfg rs field v stack suppress).1.st.validationRequestIds
        = setA rs.st.validationRequestIds field (cfg.idOf rs.idCounter) := by
      simp only [updateFieldCore, hschema]
      rw [updateFieldPost_requestIds, foldl_triggerAppError_requestIds]
    rw [h1, hgen, lookupA_setA_self]
  · intro st tv ticket verdict
    by_cases h : lookupA st.validationRequestIds field = some ticket
    · cases verdict <;> simp [updateFieldPost, h, handleValidField, handleInvalidField]
    · simp [updateFieldPost, h]

/-- C9 (witness). Concrete instantiation of the request-id discipline at a
one-field schema with explicit `Date.now()` and `Math.random()` streams. -/
theorem c9_witness :
    lookupA (updateFieldCore
        ⟨[("f", ⟨"string", none, none, none, []⟩)], 0, 5000, false,
          fun n => genRequestId (1000 : ℚ) (if n = 0 then 9 / 10 else 1 / 10)⟩
        (initRun ⟨[("f", ⟨"string", none, none, none, []⟩)], 0, 5000, false,
          fun n => genRequestId (1000 : ℚ) (if n = 0 then 9 / 10 else 1 / 10)⟩)
        "f" (.vStr "a") [] false).1.st.validationRequestIds "f"
      = some (genRequestId 1000 (9 / 10)) :=
  (c9_request_ids_equality_discipline
    ⟨[("f", ⟨"string", none, none, none, []⟩)], 0, 5000, false,
      fun n => genRequestId (1000 : ℚ) (if n = 0 then 9 / 10 else 1 / 10)⟩
    (initRun ⟨[("f", ⟨"string", none, none, none, []⟩)], 0, 5000, false,
      fun n => genRequestId (1000 : ℚ) (if n = 0 then 9 / 10 else 1 / 10)⟩)
    "f" (.vStr "a") [] false ⟨"string", none, none, none, []⟩ rfl
    (fun _ => 1000) (fun n => if n = 0 then 9 / 10 else 1 / 10) rfl).1

theorem range_map_shift (n idx : ℕ) :
    (List.range (n + 1)).map (idx + ·) = idx :: (List.range n).map ((idx + 1) + ·) := by
  rw [List.range_succ_eq_map, List.map_cons, List.map_map]
  refine congrArg₂ _ (by omega) ?_
  refine List.map_congr_left (fun a _ => ?_)
  show idx + Nat.succ a = idx + 1 + a
  omega

theorem emitFrom_allOk (d : Value) (subs : List Subscriber) :
    ∀ idx : ℕ, (∀ f ∈ subs, f d = Except.ok ()) →
    emitFrom idx subs d = ((List.range subs.length).map (idx + ·), none) := by
  induction subs with
  | nil => intro idx _; simp [emitFrom]
  | cons cb rest ih =>
      intro idx h
      have hcb := h cb (List.mem_cons_self cb rest)
      have hrest := ih (idx + 1) (fun f hf => h f (List.mem_cons_of_mem cb hf))
      simp [emitFrom, hcb, hrest, List.length_cons, range_map_shift]

theorem emitFrom_break (d : Value) (m : String) (cb : Subscriber)
    (hcb : cb d = Except.error m) (pre : List Subscriber) :
    ∀ (post : List Subscriber) (idx : ℕ), (∀ f ∈ pre, f d = Except.ok ()) →
    emitFrom idx (pre ++ cb :: post) d
      = ((List.range (pre.length + 1)).map (idx + ·), some m) := by
  induction pre with
  | nil =>
      intro post idx _
      simp [emitFrom, hcb, List.range_succ]
  | cons p pre' ih =>
      intro post idx h
      have hp := h p (List.mem_cons_self p pre')
      have hrest := ih post (idx + 1) (fun f hf => h f (List.mem_cons_of_mem p hf))
      simp [emitFrom, hp, hrest, List.length_cons, range_map_shift]

/-- C4 (counterexample). A single `emit` with two subscribers, the first of
which throws: only the first subscriber runs (the second is never invoked)
and the exception propagates out of `emit` — the source `forEach` body has
no `try`/`catch`, so a subscriber exception aborts the remaining
subscribers and escapes to the emitting call path. -/
theorem c4_counterexample :
    EventEmitter.emit
        ⟨[("evt", [fun _ => Except.error "boom", fun _ => Except.ok ()])]⟩
        "evt" Value.vNull
      = ([0], some "boom") := rfl

/-- C4 (amended). For every event with subscribers registered in order, a
single `emit` invokes the subscribers in registration order only up to and
including the first one that throws: the subscribers before it all run,
the thrower runs, its exception propagates out of `emit` to the emitting
call path, and the later subscribers are not invoked. When no subscriber
throws, every subscriber is invoked in registration order and nothing
propagates. -/
theorem c4_emit_exception_semantics :
    (∀ (em : EventEmitter) (event : String) (d : Value) (pre post : List Subscriber)
        (cb : Subscriber) (m : String),
      lookupA em.events event = some (pre ++ cb :: post) →
      (∀ f ∈ pre, f d = Except.ok ()) → cb d = Except.error m →
      em.emit event d = (List.range (pre.length + 1), some m)) ∧
    (∀ (em : EventEmitter) (event : String) (d : Value) (subs : List Subscriber),
      lookupA em.events event = some subs →
      (∀ f ∈ subs, f d = Except.ok ()) →
      em.emit event d = (List.range subs.length, none)) := by
  constructor
  · intro em event d pre post cb m hlook hpre hcb
    simp [EventEmitter.emit, hlook, emitFrom_break d m cb hcb pre post 0 hpre]
  · intro em event d subs hlook hok
    simp [EventEmitter.emit, hlook, emitFrom_allOk d subs 0 hok]

/-- C4 (witness). Concrete instantiation: subscribers `[ok, throw, ok]`;
the first two run, the exception escapes, the third never runs. -/
theorem c4_witness :
    EventEmitter.emit
        ⟨[("e", [fun _ => Except.ok (), fun _ => Except.error "x", fun _ => Except.ok ()])]⟩
        "e" Value.vNull
      = (List.range 2, some "x") := by
  have h := c4_emit_exception_semantics.1
    ⟨[("e", [fun _ => Except.ok (), fun _ => Except.error "x", fun _ => Except.ok ()])]⟩
    "e" Value.vNull [fun _ => Except.ok ()] [fun _ => Except.ok ()]
    (fun _ => Except.error "x") "x" rfl
    (by intro f hf; simp at hf; subst hf; rfl) rfl
  simpa using h

theorem foldl_invoke_append (e : AppError) (ls : List ℕ) :
    ∀ init : List (ℕ × AppError),
    ls.foldl (fun acc l => acc ++ [(l, e)]) init = init ++ ls.map (fun l => (l, e)) := by
  induction ls with
  | nil => intro init; simp
  | cons hd tl ih => intro init; simp [List.foldl, ih]

/-- C10. For every error record passed to `triggerError`, the subscribers
registered for the record's exact kind are invoked first, in registration
order, and then every subscriber registered for the `UNKNOWN` catch-all
kind is invoked; consequently, when the record's own kind is `UNKNOWN`,
each `UNKNOWN` subscriber is invoked twice for that single call. -/
theorem c10_trigger_unknown_twice :
    (∀ (h : ErrorListeners) (e : AppError),
      triggerErrorRun h e
        = (h.listenersFor e.type).map (fun l => (l, e))
          ++ (h.listenersFor .unknown).map (fun l => (l, e))) ∧
    (∀ (h : ErrorListeners) (e : AppError), e.type = .unknown →
      ∀ c : ℕ, ((triggerErrorRun h e).map Prod.fst).count c = 2 * h.unknownLs.count c) := by
  have horder : ∀ (h : ErrorListeners) (e : AppError),
      triggerErrorRun h e
        = (h.listenersFor e.type).map (fun l => (l, e))
          ++ (h.listenersFor .unknown).map (fun l => (l, e)) := by
    intro h e
    simp [triggerErrorRun, foldl_invoke_append]
  refine ⟨horder, ?_⟩
  intro h e htype c
  rw [horder, htype, ErrorListeners.listenersFor]
  have hfst : (List.map (fun l : ℕ => (l, e)) h.unknownLs).map Prod.fst = h.unknownLs := by
    have hcomp : (Prod.fst ∘ fun l : ℕ => (l, e)) = id := rfl
    rw [List.map_map, hcomp, List.map_id]
  rw [List.map_append, hfst, List.count_append]
  omega

/-- C10 (witness). Concrete instantiation: an `UNKNOWN`-kind record with a
single `UNKNOWN` subscriber invokes that subscriber twice. -/
theorem c10_witness :
    ((triggerErrorRun ⟨[], [], [], [], [], [7]⟩ ⟨.unknown, none, "u"⟩).map Prod.fst).count 7
      = 2 * List.count 7 [7] :=
  c10_trigger_unknown_twice.2 ⟨[], [], [], [], [], [7]⟩ ⟨.unknown, none, "u"⟩ rfl 7

theorem foldl_triggerAppError_appErrors (es : List AppError) (st : EngineState) :
    (es.foldl triggerAppError st).appErrors = st.appErrors ++ es := by
  induction es generalizing st with
  | nil => simp
  | cons e tl ih => simp [List.foldl, ih, triggerAppError]

theorem foldl_triggerAppError_errors (es : List AppError) (st : EngineState) :
    (es.foldl triggerAppError st).validationErrors = st.validationErrors := by
  induction es generalizing st with
  | nil => rfl
  | cons e tl ih => simp [List.foldl, ih, triggerAppError]

theorem foldl_triggerAppError_dirty (es : List AppError) (st : EngineState) :
    (es.foldl triggerAppError st).dirtyData = st.dirtyData := by
  induction es generalizing st with
  | nil => rfl
  | cons e tl ih => simp [List.foldl, ih, triggerAppError]

/-- A promise outcome that does not settle within the given timeout. -/
def settlesAfter (o : PredOutcome) (timeout : ℕ) : Prop :=
  (∃ b t, o = .asyncResolves b t ∧ timeout < t) ∨
  (∃ m t, o = .asyncRejects m t ∧ timeout < t)

theorem timeoutMsg_eq (field : String) :
    "Validation failed: " ++ ("Validation timeout: " ++ field)
      = "Validation failed: Validation timeout: " ++ field := by
  have h : ("Validation failed: " ++ "Validation timeout: " : String)
      = "Validation failed: Validation timeout: " := by decide
  rw [← String.append_assoc, h]

/-- Unfolding of `updateFieldCore` at a declared field. -/
theorem updateFieldCore_eq (cfg : RunConfig) (rs : RunState) (field : String)
    (value : Value) (stack : List String) (suppress : Bool) (fs : FieldSchemaE)
    (hschema : lookupA cfg.schema field = some fs) :
    updateFieldCore cfg rs field value stack suppress
      = (let reqId := cfg.idOf rs.idCounter
         let tv := match fs.transform with
           | some t => t value
           | none => value
         let vr := validateFieldRun fs.validator tv field cfg.timeout cfg.failFast
         let st0 : EngineState := { rs.st with
           validationRequestIds := setA rs.st.validationRequestIds field reqId,
           validationErrors := setA rs.st.validationErrors field [] }
         let erx := setA st0.validationErrors field
           ((lookupA st0.validationErrors field).getD [] ++ vr.2.1)
         let st1 := vr.2.2.1.foldl triggerAppError { st0 with validationErrors := erx }
         let r := updateFieldPost st1 field tv reqId vr.1 stack suppress
         ({ rs with st := r.1, idCounter := rs.idCounter + 1 }, r.2.1, r.2.2)) := by
  simp only [updateFieldCore, hschema]

/-- C7. For every field with a promise-returning validator whose promise
does not settle within the configured timeout, the pipeline judges the
value invalid: `setField` returns `false` and `dirty[field]` holds the
post-transform candidate; the error list for the field holds exactly the
entry with rule `validation_error` and message
`Validation failed: Validation timeout: <field>`; a `VALIDATION`
classifier error with the same message is dispatched; and (for every
validator run whatsoever) the timeout timer is cleared on both the
success and the failure paths, so timers set and cleared always balance. -/
theorem c7_validation_timeout (cfg : RunConfig) (rs : RunState) (field : String)
    (fs : FieldSchemaE) (v0 : ValidatorE) (pred : Value → PredOutcome)
    (value tv : Value)
    (hschema : lookupA cfg.schema field = some fs)
    (hvals : fs.validator = some [v0])
    (hpred : v0.validate = some pred)
    (htv : tv = (match fs.transform with | some t => t value | none => value))
    (hlate : settlesAfter (pred tv) cfg.timeout) :
    (updateFieldCore cfg rs field value [] false).2.2 = false ∧
    lookupA (updateFieldCore cfg rs field value [] false).1.st.dirtyData field = some tv ∧
    lookupA (updateFieldCore cfg rs field value [] false).1.st.validationErrors field
      = some [⟨field, "validation_error",
          "Validation failed: Validation timeout: " ++ field⟩] ∧
    (updateFieldCore cfg rs field value [] false).1.st.appErrors
      = rs.st.appErrors
        ++ [createValidationError field ("Validation failed: Validation timeout: " ++ field)] ∧
    (∀ (v' : ValidatorE) (val : Value) (f : String) (T : ℕ),
      (executeValidator v' val f T).timersCleared = (executeValidator v' val f T).timersSet) := by
  have htimerBalance : ∀ (v' : ValidatorE) (val : Value) (f : String) (T : ℕ),
      (executeValidator v' val f T).timersCleared = (executeValidator v' val f T).timersSet := by
    intro v' val f T
    cases hv : v'.validate with
    | none => simp [executeValidator, hv]
    | some p =>
        cases hp : p val with
        | syncResult b =>
            cases b <;> simp [executeValidator, hv, hp, handleValidationErrorFx]
        | syncThrow msg => simp [executeValidator, hv, hp, handleExceptionErrorFx]
        | asyncResolves b t =>
            by_cases ht : t ≤ T
            · cases b <;> simp [executeValidator, hv, hp, handleValidationErrorFx, ht]
            · simp [executeValidator, hv, hp, handleExceptionErrorFx, ht]
        | asyncRejects msg t =>
            by_cases ht : t ≤ T <;>
              simp [executeValidator, hv, hp, handleExceptionErrorFx, ht]
  have hexec : executeValidator v0 tv field cfg.timeout
      = ⟨false,
         [⟨field, "validation_error", "Validation failed: Validation timeout: " ++ field⟩],
         [createValidationError field ("Validation failed: Validation timeout: " ++ field)],
         1, 1⟩ := by
    rcases hlate with ⟨b, t, hout, hlt⟩ | ⟨m, t, hout, hlt⟩ <;>
      simp [executeValidator, hpred, hout, handleExceptionErrorFx,
        Nat.not_le_of_lt hlt, timeoutMsg_eq field, createValidationError]
  have hvr : validateFieldRun fs.validator tv field cfg.timeout cfg.failFast
      = (false,
         [⟨field, "validation_error", "Validation failed: Validation timeout: " ++ field⟩],
         [createValidationError field ("Validation failed: Validation timeout: " ++ field)],
         1, 1) := by
    cases hff : cfg.failFast <;>
      simp [validateFieldRun, hvals, hff, execValidatorsFF, execValidatorsAll, hexec]
  rw [updateFieldCore_eq cfg rs field value [] false fs hschema]
  simp only [← htv, hvr]
  set reqId := cfg.idOf rs.idCounter with hreq
  set st0 : EngineState := { rs.st with
    validationRequestIds := setA rs.st.validationRequestIds field reqId,
    validationErrors := setA rs.st.validationErrors field [] } with hst0
  set errEntry : VError :=
    ⟨field, "validation_error", "Validation failed: Validation timeout: " ++ field⟩ with herr
  set appE : AppError :=
    createValidationError field ("Validation failed: Validation timeout: " ++ field) with happ
  set erx := setA st0.validationErrors field
    ((lookupA st0.validationErrors field).getD [] ++ [errEntry]) with herx
  set st1 := [appE].foldl triggerAppError { st0 with validationErrors := erx } with hst1
  have hticket : lookupA st1.validationRequestIds field = some reqId := by
    rw [hst1, foldl_triggerAppError_requestIds]
    exact lookupA_setA_self _ _ _
  have hpost : updateFieldPost st1 field tv reqId false [] false
      = (handleInvalidField st1 field tv, [], false) := by
    simp [updateFieldPost, hticket]
  rw [hpost]
  refine ⟨rfl, ?_, ?_, ?_, htimerBalance⟩
  · simp [handleInvalidField, lookupA_setA_self]
  · have herrs : st1.validationErrors = erx := by
      rw [hst1, foldl_triggerAppError_errors]
    have hex : lookupA erx field = some [errEntry] := by
      rw [herx, hst0]
      simp [lookupA_setA_self]
    simp [handleInvalidField, herrs, hex]
  · have happs : st1.appErrors = st0.appErrors ++ [appE] := by
      rw [hst1, foldl_triggerAppError_appErrors]
    simp [handleInvalidField, happs, hst0]

/-- C7 (witness). Scenario S6: field `slow` with an async validator whose
promise resolves after 10000 ms against a 100 ms timeout. -/
theorem c7_witness :
    (updateFieldCore
        ⟨[("slow", ⟨"string", some [⟨"async", "msg",
            some (fun _ => .asyncResolves true 10000)⟩], none, none, []⟩)],
          0, 100, false, fun _ => 1⟩
        (initRun ⟨[("slow", ⟨"string", some [⟨"async", "msg",
            some (fun _ => .asyncResolves true 10000)⟩], none, none, []⟩)],
          0, 100, false, fun _ => 1⟩)
        "slow" (.vStr "v") [] false).2.2 = false ∧
    lookupA (updateFieldCore
        ⟨[("slow", ⟨"string", some [⟨"async", "msg",
            some (fun _ => .asyncResolves true 10000)⟩], none, none, []⟩)],
          0, 100, false, fun _ => 1⟩
        (initRun ⟨[("slow", ⟨"string", some [⟨"async", "msg",
            some (fun _ => .asyncResolves true 10000)⟩], none, none, []⟩)],
          0, 100, false, fun _ => 1⟩)
        "slow" (.vStr "v") [] false).1.st.dirtyData "slow" = some (.vStr "v") := by
  have h := c7_validation_timeout
    ⟨[("slow", ⟨"string", some [⟨"async", "msg",
        some (fun _ => .asyncResolves true 10000)⟩], none, none, []⟩)],
      0, 100, false, fun _ => 1⟩
    (initRun ⟨[("slow", ⟨"string", some [⟨"async", "msg",
        some (fun _ => .asyncResolves true 10000)⟩], none, none, []⟩)],
      0, 100, false, fun _ => 1⟩)
    "slow"
    ⟨"string", some [⟨"async", "msg", some (fun _ => .asyncResolves true 10000)⟩],
      none, none, []⟩
    ⟨"async", "msg", some (fun _ => .asyncResolves true 10000)⟩
    (fun _ => .asyncResolves true 10000)
    (.vStr "v") (.vStr "v") rfl rfl rfl rfl
    (Or.inl ⟨true, 10000, rfl, by decide⟩)
  exact ⟨h.1, h.2.1⟩

/-- The transform step of `updateField`. -/
def applyTransform (fs : FieldSchemaE) (v : Value) : Value :=
  match fs.transform with
  | some t => t v
  | none => v

/-- The verdict a `setField(f, v)` call computes, which depends only on the
schema, the candidate and the options: `false` for an undeclared field,
otherwise the validation pipeline's verdict on the transformed candidate. -/
def fieldVerdict (cfg : RunConfig) (f : String) (v : Value) : Bool :=
  match lookupA cfg.schema f with
  | none => false
  | some fs => (validateFieldRun fs.validator (applyTransform fs v) f cfg.timeout cfg.failFast).1

theorem handleValidField_suppress_intents (st : EngineState) (f : String) (v : Value)
    (stk : List String) : (handleValidField st f v stk true).2 = [] := by
  simp only [handleValidField]
  split <;> simp

theorem updateFieldPost_suppress_intents (st : EngineState) (f : String) (tv : Value)
    (tk : ℚ) (vd : Bool) (stk : List String) :
    (updateFieldPost st f tv tk vd stk true).2.1 = [] := by
  simp only [updateFieldPost]
  split
  · rfl
  · split
    · simpa using handleValidField_suppress_intents st f tv stk
    · rfl

theorem updateFieldCore_suppress_intents (cfg : RunConfig) (rs : RunState) (f : String)
    (v : Value) (stack : List String) :
    (updateFieldCore cfg rs f v stack true).2.1 = [] := by
  cases hs : lookupA cfg.schema f with
  | none => simp [updateFieldCore, hs]
  | some fs =>
      rw [updateFieldCore_eq cfg rs f v stack true fs hs]
      simpa using updateFieldPost_suppress_intents _ f _ _ _ stack

theorem updateFieldCore_verdict (cfg : RunConfig) (rs : RunState) (f : String)
    (v : Value) (stack : List String) (sup : Bool) :
    (updateFieldCore cfg rs f v stack sup).2.2 = fieldVerdict cfg f v := by
  cases hs : lookupA cfg.schema f with
  | none => simp [updateFieldCore, hs, fieldVerdict]
  | some fs =>
      rw [updateFieldCore_eq cfg rs f v stack sup fs hs]
      simp only [fieldVerdict, hs, applyTransform]
      set tv := (match fs.transform with
        | some t => t v
        | none => v) with htv
      set vr := validateFieldRun fs.validator tv f cfg.timeout cfg.failFast with hvr
      have hticket : lookupA (vr.2.2.1.foldl triggerAppError
          { { rs.st with
              validationRequestIds := setA rs.st.validationRequestIds f (cfg.idOf rs.idCounter),
              validationErrors := setA rs.st.validationErrors f [] } with
            validationErrors := setA (setA rs.st.validationErrors f []) f
              ((lookupA (setA rs.st.validationErrors f []) f).getD [] ++ vr.2.1)
          }).validationRequestIds f = some (cfg.idOf rs.idCounter) := by
        rw [foldl_triggerAppError_requestIds]
        exact lookupA_setA_self _ _ _
      simp only [updateFieldPost, hticket]
      cases hv : vr.1 <;> simp [hv]

theorem batchUpdates_intents (cfg : RunConfig) (fields : List (String × Value)) :
    ∀ rs, (batchUpdates cfg rs fields).2.1 = [] := by
  induction fields with
  | nil => intro rs; rfl
  | cons p rest ih =>
      intro rs
      obtain ⟨f, v⟩ := p
      simp [batchUpdates, ih, updateFieldCore_suppress_intents]

theorem batchUpdates_verdict (cfg : RunConfig) (fields : List (String × Value)) :
    ∀ rs, (batchUpdates cfg rs fields).2.2
      = fields.all (fun p => fieldVerdict cfg p.1 p.2) := by
  induction fields with
  | nil => intro rs; rfl
  | cons p rest ih =>
      intro rs
      obtain ⟨f, v⟩ := p
      simp [batchUpdates, ih, updateFieldCore_verdict, List.all_cons]

/-- The reaction identities held by a de-duplication map. -/
def ridsOf (m : List (ReactionE × String)) : List ℕ := m.map (fun p => p.1.rid)

theorem any_rid_iff (m : List (ReactionE × String)) (r : ReactionE) :
    (m.any (fun p => p.1.rid == r.rid) = true) ↔ r.rid ∈ ridsOf m := by
  simp only [List.any_eq_true, ridsOf, List.mem_map, beq_iff_eq]

theorem ridsOf_mapSetR (m : List (ReactionE × String)) (r : ReactionE) (o : String) :
    ridsOf (mapSetR m r o) = if r.rid ∈ ridsOf m then ridsOf m else ridsOf m ++ [r.rid] := by
  by_cases h : m.any (fun p => p.1.rid == r.rid) = true
  · have hmem : r.rid ∈ ridsOf m := (any_rid_iff m r).1 h
    rw [if_pos hmem]
    simp only [mapSetR, h, if_true, ridsOf, List.map_map]
    refine List.map_congr_left (fun p _ => ?_)
    by_cases hp : p.1.rid = r.rid
    · simp [hp]
    · simp [hp]
  · have hmem : r.rid ∉ ridsOf m := fun hc => h ((any_rid_iff m r).2 hc)
    rw [if_neg hmem]
    simp [mapSetR, h, ridsOf]

theorem mem_ridsOf_mapSetR (m : List (ReactionE × String)) (r : ReactionE) (o : String)
    (x : ℕ) : x ∈ ridsOf (mapSetR m r o) ↔ x ∈ ridsOf m ∨ x = r.rid := by
  rw [ridsOf_mapSetR]
  split
  · next hmem =>
      constructor
      · exact Or.inl
      · rintro (hx | hx)
        · exact hx
        · exact hx ▸ hmem
  · simp

theorem nodup_ridsOf_mapSetR (m : List (ReactionE × String)) (r : ReactionE) (o : String)
    (h : (ridsOf m).Nodup) : (ridsOf (mapSetR m r o)).Nodup := by
  rw [ridsOf_mapSetR]
  split
  · exact h
  · next hmem => simp [List.nodup_append, h, hmem]

theorem innerFold_rids (ps : List (String × ReactionE)) :
    ∀ m, (∀ x, x ∈ ridsOf (ps.foldl (fun m2 p => mapSetR m2 p.2 p.1) m)
        ↔ x ∈ ridsOf m ∨ ∃ p ∈ ps, p.2.rid = x) ∧
      ((ridsOf m).Nodup →
        (ridsOf (ps.foldl (fun m2 p => mapSetR m2 p.2 p.1) m)).Nodup) := by
  induction ps with
  | nil => intro m; simp
  | cons p rest ih =>
      intro m
      constructor
      · intro x
        rw [List.foldl_cons, ((ih (mapSetR m p.2 p.1)).1 x), mem_ridsOf_mapSetR]
        constructor
        · rintro ((hx | hx) | hx)
          · exact Or.inl hx
          · exact Or.inr ⟨p, List.mem_cons_self p rest, hx.symm⟩
          · rcases hx with ⟨q, hq, hqx⟩
            exact Or.inr ⟨q, List.mem_cons_of_mem p hq, hqx⟩
        · rintro (hx | ⟨q, hq, hqx⟩)
          · exact Or.inl (Or.inl hx)
          · rcases List.mem_cons.1 hq with hq1 | hq2
            · exact Or.inl (Or.inr (hq1 ▸ hqx).symm)
            · exact Or.inr ⟨q, hq2, hqx⟩
      · intro hnd
        exact (ih (mapSetR m p.2 p.1)).2 (nodup_ridsOf_mapSetR m p.2 p.1 hnd)

theorem reactionsToTrigger_rids (schema : SchemaE) (K : List String) :
    (∀ x, x ∈ ridsOf (reactionsToTrigger schema K)
        ↔ ∃ c ∈ K, ∃ p ∈ depsFor schema c, p.2.rid = x) ∧
      (ridsOf (reactionsToTrigger schema K)).Nodup := by
  have main : ∀ (cs : List String) (m : List (ReactionE × String)),
      (∀ x, x ∈ ridsOf (cs.foldl
          (fun m c => (depsFor schema c).foldl (fun m2 p => mapSetR m2 p.2 p.1) m) m)
        ↔ x ∈ ridsOf m ∨ ∃ c ∈ cs, ∃ p ∈ depsFor schema c, p.2.rid = x) ∧
      ((ridsOf m).Nodup →
        (ridsOf (cs.foldl
          (fun m c => (depsFor schema c).foldl (fun m2 p => mapSetR m2 p.2 p.1) m) m)).Nodup) := by
    intro cs
    induction cs with
    | nil => intro m; simp
    | cons c rest ih =>
        intro m
        constructor
        · intro x
          rw [List.foldl_cons,
            ((ih ((depsFor schema c).foldl (fun m2 p => mapSetR m2 p.2 p.1) m)).1 x),
            ((innerFold_rids (depsFor schema c) m).1 x)]
          constructor
          · rintro ((hx | hx) | hx)
            · exact Or.inl hx
            · exact Or.inr ⟨c, List.mem_cons_self c rest, hx⟩
            · rcases hx with ⟨c2, hc2, hp⟩
              exact Or.inr ⟨c2, List.mem_cons_of_mem c hc2, hp⟩
          · rintro (hx | ⟨c2, hc2, hp⟩)
            · exact Or.inl (Or.inl hx)
            · rcases List.mem_cons.1 hc2 with hcc | hcc
              · exact Or.inl (Or.inr (hcc ▸ hp))
              · exact Or.inr ⟨c2, hcc, hp⟩
        · intro hnd
          exact (ih _).2 ((innerFold_rids (depsFor schema c) m).2 hnd)
  constructor
  · intro x
    have := (main K []).1 x
    simpa [reactionsToTrigger, ridsOf] using this
  · have := (main K []).2
    simpa [reactionsToTrigger, ridsOf] using this (by simp [ridsOf])

theorem triggerSchedule_nil_stack (schema : SchemaE) (K : List String) :
    triggerSchedule schema K []
      = ((reactionsToTrigger schema K).map (fun p => (p.2, p.1)), []) := by
  have main : ∀ (m : List (ReactionE × String)) (acc : List (String × ReactionE) × List AppError),
      m.foldl (fun acc p =>
          if p.2 ∈ ([] : List String) then
            (acc.1, acc.2 ++
              [createCircularDependencyError (String.intercalate " -> " []) p.2])
          else (acc.1 ++ [(p.2, p.1)], acc.2)) acc
        = (acc.1 ++ m.map (fun p => (p.2, p.1)), acc.2) := by
    intro m
    induction m with
    | nil => intro acc; simp
    | cons p rest ih =>
        intro acc
        rw [List.foldl_cons, ih]
        simp
  simpa [triggerSchedule] using main (reactionsToTrigger schema K) ([], [])

theorem mem_collectReactions (schema : SchemaE) (d o : String) (r : ReactionE) :
    (d, o, r) ∈ collectReactions schema
      ↔ ∃ fs, (o, fs) ∈ schema ∧ r ∈ fs.reaction ∧ d ∈ r.fields := by
  simp only [collectReactions, List.mem_flatMap, List.mem_map]
  constructor
  · rintro ⟨⟨o2, fs⟩, he, rr, hrr, dd, hdd, heq⟩
    obtain ⟨rfl, rfl, rfl⟩ : dd = d ∧ o2 = o ∧ rr = r := by
      simpa [Prod.ext_iff] using heq
    exact ⟨fs, he, hrr, hdd⟩
  · rintro ⟨fs, hfs, hr, hd⟩
    exact ⟨(o, fs), hfs, r, hr, d, hd, rfl⟩

theorem mem_depsFor (schema : SchemaE) (c o : String) (r : ReactionE) :
    (o, r) ∈ depsFor schema c ↔ (c, o, r) ∈ collectReactions schema := by
  simp only [depsFor, List.mem_filterMap]
  constructor
  · rintro ⟨⟨d2, o2, r2⟩, he, hsome⟩
    by_cases hc : d2 = c
    · subst hc
      simp only [if_pos rfl] at hsome
      obtain ⟨rfl, rfl⟩ : o2 = o ∧ r2 = r := by simpa [Prod.ext_iff] using hsome
      exact he
    · simp [hc] at hsome
  · intro h
    exact ⟨(c, o, r), h, by simp⟩

theorem depField_mem_fields (schema : SchemaE) (d o : String) (r : ReactionE)
    (h : (d, o, r) ∈ collectReactions schema) : d ∈ r.fields := by
  obtain ⟨fs, _, _, hd⟩ := (mem_collectReactions schema d o r).1 h
  exact hd

theorem collect_swap_dep (schema : SchemaE) (d o c : String) (r : ReactionE)
    (h : (d, o, r) ∈ collectReactions schema) (hc : c ∈ r.fields) :
    (c, o, r) ∈ collectReactions schema := by
  obtain ⟨fs, hfs, hr, _⟩ := (mem_collectReactions schema d o r).1 h
  exact (mem_collectReactions schema c o r).2 ⟨fs, hfs, hr, hc⟩

/-- C6. For every `setFields` call with input keys `K`: every per-field
update runs with reactions suppressed (the per-field updates produce no
fan-out intents); after all per-field updates complete the reaction graph
is batch-triggered for the union of input field names with the empty
propagation stack, so no entry is refused; every registered reaction whose
dependency list intersects `K` is scheduled exactly once (de-duplicated by
reaction identity) and reactions whose dependencies miss `K` are not
scheduled; and the returned boolean is the conjunction of the per-field
verdicts. The hypothesis states that distinct registration entries sharing
a reaction identity are the same registration (object identity in the
source). -/
theorem c6_setFields_suppress_dedup_conjunction (cfg : RunConfig) (rs : RunState)
    (fields : List (String × Value))
    (hinj : ∀ e1 e2 : String × String × ReactionE,
      e1 ∈ collectReactions cfg.schema → e2 ∈ collectReactions cfg.schema →
      e1.2.2.rid = e2.2.2.rid → e1.2 = e2.2) :
    (batchUpdates cfg rs fields).2.1 = [] ∧
    (setFieldsRun cfg rs fields).2.1.2 = [] ∧
    (∀ d o : String, ∀ r : ReactionE, (d, o, r) ∈ collectReactions cfg.schema →
      ((setFieldsRun cfg rs fields).2.1.1.map (fun q => q.2.rid)).count r.rid
        = if ∃ c ∈ fields.map Prod.fst, c ∈ r.fields then 1 else 0) ∧
    (setFieldsRun cfg rs fields).2.2 = fields.all (fun p => fieldVerdict cfg p.1 p.2) := by
  have hsched : (setFieldsRun cfg rs fields).2.1
      = ((reactionsToTrigger cfg.schema (fields.map Prod.fst)).map (fun p => (p.2, p.1)), []) := by
    show triggerSchedule cfg.schema (fields.map Prod.fst) [] = _
    exact triggerSchedule_nil_stack cfg.schema (fields.map Prod.fst)
  refine ⟨batchUpdates_intents cfg fields rs, by rw [hsched], ?_, ?_⟩
  · intro d o r hreg
    have hmap : (setFieldsRun cfg rs fields).2.1.1.map (fun q => q.2.rid)
        = ridsOf (reactionsToTrigger cfg.schema (fields.map Prod.fst)) := by
      rw [hsched]
      simp [ridsOf, List.map_map]
    rw [hmap]
    set K := fields.map Prod.fst with hK
    rcases reactionsToTrigger_rids cfg.schema K with ⟨hmem, hnd⟩
    by_cases hex : ∃ c ∈ K, c ∈ r.fields
    · rw [if_pos hex]
      obtain ⟨c, hcK, hcr⟩ := hex
      have hreg2 : (c, o, r) ∈ collectReactions cfg.schema :=
        collect_swap_dep cfg.schema d o c r hreg hcr
      have hmemRid : r.rid ∈ ridsOf (reactionsToTrigger cfg.schema K) :=
        (hmem r.rid).2 ⟨c, hcK, (o, r), (mem_depsFor cfg.schema c o r).2 hreg2, rfl⟩
      exact List.count_eq_one_of_mem hnd hmemRid
    · rw [if_neg hex]
      refine List.count_eq_zero_of_not_mem (fun hc => hex ?_)
      obtain ⟨c, hcK, ⟨o2, r2⟩, hdep, hr2⟩ := (hmem r.rid).1 hc
      have hreg2 : (c, o2, r2) ∈ collectReactions cfg.schema :=
        (mem_depsFor cfg.schema c o2 r2).1 hdep
      have heq : (c, o2, r2).2 = (d, o, r).2 := hinj (c, o2, r2) (d, o, r) hreg2 hreg hr2
      have hrr : r2 = r := congrArg Prod.snd heq
      exact ⟨c, hcK, hrr ▸ depField_mem_fields cfg.schema c o2 r2 hreg2⟩
  · show (batchUpdates cfg rs fields).2.2 = _
    exact batchUpdates_verdict cfg fields rs

/-- Scenario S2's reaction: owner `c`, dependencies `[a, b]`, compute
`a + b`. -/
def rS2 : ReactionE :=
  ⟨1, ["a", "b"],
   fun m => match lookupA m "a", lookupA m "b" with
     | some (.vNum x), some (.vNum y) => .vNum (x + y)
     | _, _ => .vNull,
   none⟩

/-- Scenario S2's schema: `a`, `b` numbers defaulting to 0, `c` computed
from `[a, b]`. -/
def schemaS2 : SchemaE :=
  [("a", ⟨"number", none, some (.vNum 0), none, []⟩),
   ("b", ⟨"number", none, some (.vNum 0), none, []⟩),
   ("c", ⟨"number", none, some (.vNum 0), none, [rS2]⟩)]

/-- Scenario S2's configuration: no debounce, defaults otherwise. -/
def cfgS2 : RunConfig := ⟨schemaS2, 0, 5000, false, fun n => (n : ℚ)⟩

/-- C6 (witness). Scenario S2: `setFields({a: 1, b: 2})` schedules the
`[a, b]` reaction exactly once and returns the conjunction of the
verdicts. -/
theorem c6_witness :
    ((setFieldsRun cfgS2 (initRun cfgS2) [("a", .vNum 1), ("b", .vNum 2)]).2.1.1.map
        (fun q => q.2.rid)).count 1 = 1 ∧
    (setFieldsRun cfgS2 (initRun cfgS2) [("a", .vNum 1), ("b", .vNum 2)]).2.2
      = ([("a", Value.vNum 1), ("b", Value.vNum 2)] : List (String × Value)).all
          (fun p => fieldVerdict cfgS2 p.1 p.2) := by
  have hcollect : collectReactions schemaS2 = [("a", "c", rS2), ("b", "c", rS2)] := rfl
  have hinj : ∀ e1 e2 : String × String × ReactionE,
      e1 ∈ collectReactions cfgS2.schema → e2 ∈ collectReactions cfgS2.schema →
      e1.2.2.rid = e2.2.2.rid → e1.2 = e2.2 := by
    intro e1 e2 h1 h2 _
    have hs : cfgS2.schema = schemaS2 := rfl
    rw [hs, hcollect] at h1 h2
    have g1 : e1.2 = ("c", rS2) := by
      rcases List.mem_cons.1 h1 with h | h
      · rw [h]
      · rcases List.mem_cons.1 h with h | h
        · rw [h]
        · simp at h
    have g2 : e2.2 = ("c", rS2) := by
      rcases List.mem_cons.1 h2 with h | h
      · rw [h]
      · rcases List.mem_cons.1 h with h | h
        · rw [h]
        · simp at h
    rw [g1, g2]
  have happ := c6_setFields_suppress_dedup_conjunction cfgS2 (initRun cfgS2)
    [("a", .vNum 1), ("b", .vNum 2)] hinj
  have hme : ("a", "c", rS2) ∈ collectReactions cfgS2.schema := by
    rw [show cfgS2.schema = schemaS2 from rfl, hcollect]
    exact List.mem_cons_self _ _
  have hcount := happ.2.2.1 "a" "c" rS2 hme
  have hex : ∃ c ∈ ([("a", Value.vNum 1), ("b", Value.vNum 2)] :
      List (String × Value)).map Prod.fst, c ∈ rS2.fields := by
    refine ⟨"a", ?_, ?_⟩
    · simp
    · show "a" ∈ ["a", "b"]
      simp
  rw [if_pos hex] at hcount
  exact ⟨hcount, happ.2.2.2⟩

/-- Observable events in the execution of one reaction: the compute, the
start of the inner `setValue` commit (its synchronous call), the action
callback invocation, and the later resolution of the commit (the inner
`updateField` finishing after its internal await). -/
inductive RSEvent where
  | computed : Value → RSEvent
  | commitStarted : String → Value → RSEvent
  | actionInvoked : ℕ → Value → RSEvent
  | commitResolved : String → Value → RSEvent
deriving Repr

/-- Embedding of `ReactionSystem.processReaction` with the event-loop tail:
the synchronous body gathers dependency values, computes, calls
`this.callbacks.setValue(field, computedValue, {reactionStack})` WITHOUT
awaiting the returned promise, and then immediately invokes the action
callback. Only after the synchronous body finishes does the event loop run
the suspended remainder of the inner `updateField` (modelled by
`updateFieldCore`, whose effects land at commit resolution), appending the
`commitResolved` event. Returns the full trace and the state after the
commit resolves. -/
def processReactionNoAwait (cfg : RunConfig) (rs : RunState) (owner : String)
    (r : ReactionE) (stack2 : List String) : List RSEvent × RunState :=
  let g := gatherDeps rs.st owner r.fields
  let cval := r.computed g.1
  let syncTrace := [RSEvent.computed cval, RSEvent.commitStarted owner cval] ++
    (match r.action with
     | some aid => [RSEvent.actionInvoked aid cval]
     | none => [])
  let after := updateFieldCore cfg { rs with st := g.2 } owner cval stack2 false
  (syncTrace ++ [RSEvent.commitResolved owner cval], after.1)

/-- Scenario for C8: owner `b` with a reaction over `[a]` forwarding
the value of `a` and an action callback with id `5`. -/
def rC8 : ReactionE :=
  ⟨1, ["a"], fun m => (lookupA m "a").getD .vNull, some 5⟩

/-- Scenario schema for C8. -/
def schemaC8 : SchemaE :=
  [("a", ⟨"number", none, some (.vNum 3), none, []⟩),
   ("b", ⟨"number", none, some (.vNum 0), none, [rC8]⟩)]

/-- Scenario configuration for C8. -/
def cfgC8 : RunConfig := ⟨schemaC8, 0, 5000, false, fun n => (n : ℚ)⟩

/-- C8 (counterexample). Executing the reaction with an action callback
produces the trace `computed, commitStarted, actionInvoked,
commitResolved`: the action callback is invoked at position 2, strictly
BEFORE the commit resolves at position 3, because the source calls
`this.callbacks.setValue(...)` without `await` and invokes the action in
the same synchronous body. The claim's required
compute-then-commit-then-action order does not hold. -/
theorem c8_counterexample :
    (processReactionNoAwait cfgC8 (initRun cfgC8) "b" rC8 ["a"]).1[2]?
      = some (RSEvent.actionInvoked 5 (.vNum 3)) ∧
    (processReactionNoAwait cfgC8 (initRun cfgC8) "b" rC8 ["a"]).1[3]?
      = some (RSEvent.commitResolved "b" (.vNum 3)) := by
  exact ⟨rfl, rfl⟩

/-- C8 (amended). For every reaction with an action callback, executing
the reaction computes the value, then synchronously initiates the commit
(the inner `setValue`) without awaiting it, then invokes the action
callback with the computed value, and the commit resolves only after the
action has run: the trace is always `computed, commitStarted,
actionInvoked, commitResolved` in that order. -/
theorem c8_action_before_commit_resolves (cfg : RunConfig) (rs : RunState)
    (owner : String) (r : ReactionE) (stack2 : List String) (aid : ℕ)
    (haction : r.action = some aid) :
    (processReactionNoAwait cfg rs owner r stack2).1
      = [RSEvent.computed (r.computed (gatherDeps rs.st owner r.fields).1),
         RSEvent.commitStarted owner (r.computed (gatherDeps rs.st owner r.fields).1),
         RSEvent.actionInvoked aid (r.computed (gatherDeps rs.st owner r.fields).1),
         RSEvent.commitResolved owner (r.computed (gatherDeps rs.st owner r.fields).1)] := by
  simp [processReactionNoAwait, haction]

/-- C8 (witness). Concrete instantiation of the trace order. -/
theorem c8_witness :
    (processReactionNoAwait cfgC8 (initRun cfgC8) "b" rC8 ["a"]).1
      = [RSEvent.computed (rC8.computed (gatherDeps (initRun cfgC8).st "b" rC8.fields).1),
         RSEvent.commitStarted "b" (rC8.computed (gatherDeps (initRun cfgC8).st "b" rC8.fields).1),
         RSEvent.actionInvoked 5 (rC8.computed (gatherDeps (initRun cfgC8).st "b" rC8.fields).1),
         RSEvent.commitResolved "b" (rC8.computed (gatherDeps (initRun cfgC8).st "b" rC8.fields).1)] :=
  c8_action_before_commit_resolves cfgC8 (initRun cfgC8) "b" rC8 ["a"] 5 rfl

/-- The declared field names of a configuration. -/
def fieldsOf (cfg : RunConfig) : List String := cfg.schema.map Prod.fst

/-- The shape of every propagation stack the engine builds: each element
differs from every element before it except possibly its immediate
predecessor (a scheduled owner is checked against the stack as it was
before the changed field was appended, so it may coincide only with that
changed field). -/
def AlmostNodup : List String → Prop
  | [] => True
  | [_] => True
  | a :: b :: rest => a ∉ rest ∧ AlmostNodup (b :: rest)

theorem ad_nil : AlmostNodup [] := trivial

theorem ad_single (a : String) : AlmostNodup [a] := trivial

theorem ad_append_right : ∀ (l : List String) (x : String),
    AlmostNodup (l ++ [x]) → AlmostNodup l
  | [], _, _ => trivial
  | [_], _, _ => trivial
  | a :: b :: rest, x, h => by
      obtain ⟨h1, h2⟩ := h
      exact ⟨fun hc => h1 (List.mem_append_left _ hc),
        ad_append_right (b :: rest) x h2⟩

theorem ad_count_le_two : ∀ (l : List String), AlmostNodup l → ∀ x, l.count x ≤ 2
  | [], _, _ => by simp
  | [a], _, x => by
      by_cases h : a = x <;> simp [List.count_cons, h]
  | a :: b :: rest, h, x => by
      obtain ⟨h1, h2⟩ := h
      have hrest := ad_count_le_two (b :: rest) h2 x
      by_cases hax : a = x
      · subst hax
        have hra : rest.count a = 0 := List.count_eq_zero_of_not_mem h1
        by_cases hba : b = a <;>
          simp [List.count_cons, hra, hba]
      · simpa [List.count_cons, hax] using hrest

theorem ad_length_le (l flds : List String) (hnd : flds.Nodup)
    (had : AlmostNodup l) (hsub : ∀ x ∈ l, x ∈ flds) :
    l.length ≤ 2 * flds.length := by
  have hsum : ∑ a ∈ l.toFinset, l.count a = l.length := by
    simp [Multiset.coe_count]
  have hb : ∑ a ∈ l.toFinset, l.count a ≤ ∑ _a ∈ l.toFinset, 2 :=
    Finset.sum_le_sum (fun a _ => ad_count_le_two l had a)
  have hcard : l.toFinset.card ≤ flds.toFinset.card := by
    refine Finset.card_le_card (fun a ha => ?_)
    rw [List.mem_toFinset] at ha ⊢
    exact hsub a ha
  have hflds : flds.toFinset.card = flds.length := by
    rw [List.toFinset_card_of_nodup hnd]
  calc l.length = ∑ a ∈ l.toFinset, l.count a := hsum.symm
    _ ≤ ∑ _a ∈ l.toFinset, 2 := hb
    _ = 2 * l.toFinset.card := by rw [Finset.sum_const]; ring
    _ ≤ 2 * flds.toFinset.card := by omega
    _ = 2 * flds.length := by rw [hflds]

theorem ad_extend : ∀ (s : List String) (f O : String),
    AlmostNodup (s ++ [f]) → O ∉ s → AlmostNodup (s ++ [f, O])
  | [], f, O, _, _ => by
      refine ⟨?_, trivial⟩
      simp
  | [a], f, O, _, hO => by
      refine ⟨?_, ?_, trivial⟩
      · intro hc
        rcases List.mem_cons.1 hc with h | h
        · exact hO (by simp [h])
        · simp at h
      · simp
  | a :: b :: rest, f, O, h, hO => by
      obtain ⟨h1, h2⟩ := h
      have hOb : O ∉ b :: rest := fun hc => hO (List.mem_cons_of_mem a hc)
      refine ⟨?_, ad_extend (b :: rest) f O h2 hOb⟩
      intro hc
      rcases List.mem_append.1 hc with hcl | hcr
      · exact h1 (List.mem_append_left _ hcl)
      · rcases List.mem_cons.1 hcr with hcf | hcO
        · exact h1 (by simp [hcf])
        · have haO : a = O := by simpa using hcO
          exact hO (by simp [haO.symm])

theorem execRS_zero (cfg : RunConfig) (rs : RunState) (job : Job) :
    execRS 0 cfg rs job = none := rfl

theorem execRS_update_eq (fuel : ℕ) (cfg : RunConfig) (rs : RunState) (field : String)
    (value : Value) (stack : List String) (suppress : Bool) :
    execRS (fuel + 1) cfg rs (.update field value stack suppress)
      = (let r := updateFieldCore cfg rs field value stack suppress
         match r.2.1 with
         | [] => some (r.1, r.2.2)
         | intent :: _ =>
             match execRS fuel cfg r.1
                 (.triggerList (reactionsToTrigger cfg.schema [intent.field])
                   [intent.field] intent.stack) with
             | none => none
             | some (rs2, _) => some (rs2, r.2.2)) := rfl

theorem execRS_trigger_nil (fuel : ℕ) (cfg : RunConfig) (rs : RunState)
    (cf s : List String) :
    execRS (fuel + 1) cfg rs (.triggerList [] cf s) = some (rs, true) := rfl

theorem execRS_trigger_cons (fuel : ℕ) (cfg : RunConfig) (rs : RunState)
    (r : ReactionE) (o : String) (rest : List (ReactionE × String))
    (cf s : List String) :
    execRS (fuel + 1) cfg rs (.triggerList ((r, o) :: rest) cf s)
      = (if o ∈ s then
           let e := createCircularDependencyError (String.intercalate " -> " s) o
           let rs2 := { rs with st := triggerAppError rs.st e }
           execRS fuel cfg rs2 (.triggerList rest cf s)
         else
           let rs2 := { rs with timers := rs.timers.filter (fun t => !(t.1 == r.rid)) }
           if cfg.debounce > 0 then
             let rs3 := { rs2 with timers := rs2.timers ++ [(r.rid, o, s ++ cf)] }
             execRS fuel cfg rs3 (.triggerList rest cf s)
           else
             match execRS fuel cfg rs2 (.process o r (s ++ cf)) with
             | none => none
             | some (rs3, _) => execRS fuel cfg rs3 (.triggerList rest cf s)) := rfl

theorem execRS_process_eq (fuel : ℕ) (cfg : RunConfig) (rs : RunState)
    (o : String) (r : ReactionE) (s2 : List String) :
    execRS (fuel + 1) cfg rs (.process o r s2)
      = (let g := gatherDeps rs.st o r.fields
         let cval := r.computed g.1
         match execRS fuel cfg { rs with st := g.2 } (.update o cval s2 false) with
         | none => none
         | some (rs2, _) =>
             match r.action with
             | some aid =>
                 some ({ rs2 with actionLog := rs2.actionLog ++ [(aid, cval)] }, true)
             | none => some (rs2, true)) := rfl

theorem execRS_mono : ∀ (fuel : ℕ) (cfg : RunConfig) (rs : RunState) (job : Job)
    (x : RunState × Bool), execRS fuel cfg rs job = some x →
    ∀ fuel', fuel ≤ fuel' → execRS fuel' cfg rs job = some x := by
  intro fuel
  induction fuel with
  | zero =>
      intro cfg rs job x h
      rw [execRS_zero] at h
      exact absurd h (by simp)
  | succ n ih =>
      intro cfg rs job x h fuel' hle
      obtain ⟨m, rfl⟩ : ∃ m, fuel' = m + 1 := ⟨fuel' - 1, by omega⟩
      have hnm : n ≤ m := by omega
      cases job with
      | update f v s sup =>
          rw [execRS_update_eq] at h
          rw [execRS_update_eq]
          simp only [] at h ⊢
          cases hint : (updateFieldCore cfg rs f v s sup).2.1 with
          | nil => simpa [hint] using h
          | cons intent tail =>
              simp only [hint] at h ⊢
              cases hrec : execRS n cfg (updateFieldCore cfg rs f v s sup).1
                  (.triggerList (reactionsToTrigger cfg.schema [intent.field])
                    [intent.field] intent.stack) with
              | none => simp [hrec] at h
              | some y =>
                  rw [ih _ _ _ _ hrec m hnm]
                  simpa [hrec] using h
      | triggerList entries cf s =>
          cases entries with
          | nil =>
              rw [execRS_trigger_nil] at h
              rw [execRS_trigger_nil]
              exact h
          | cons p rest =>
              obtain ⟨r, o⟩ := p
              rw [execRS_trigger_cons] at h
              rw [execRS_trigger_cons]
              by_cases ho : o ∈ s
              · simp only [ho, if_true] at h ⊢
                exact ih _ _ _ _ h m hnm
              · simp only [ho, if_false] at h ⊢
                by_cases hd : cfg.debounce > 0
                · simp only [hd, if_true] at h ⊢
                  exact ih _ _ _ _ h m hnm
                · simp only [hd, if_false] at h ⊢
                  cases hrec : execRS n cfg
                      { rs with timers := rs.timers.filter (fun t => !(t.1 == r.rid)) }
                      (.process o r (s ++ cf)) with
                  | none => simp [hrec] at h
                  | some y =>
                      rw [ih _ _ _ _ hrec m hnm]
                      simp only [hrec] at h
                      exact ih _ _ _ _ h m hnm
      | process o r s2 =>
          rw [execRS_process_eq] at h
          rw [execRS_process_eq]
          simp only [] at h ⊢
          cases hrec : execRS n cfg
              { rs with st := (gatherDeps rs.st o r.fields).2 }
              (.update o (r.computed (gatherDeps rs.st o r.fields).1) s2 false) with
          | none => simp [hrec] at h
          | some y =>
              rw [ih _ _ _ _ hrec m hnm]
              simpa [hrec] using h

theorem lookupA_some_mem {α : Type} (m : List (String × α)) (k : String) (v : α)
    (h : lookupA m k = some v) : k ∈ m.map Prod.fst := by
  induction m with
  | nil => simp [lookupA] at h
  | cons hd tl ih =>
      by_cases hk : hd.1 = k
      · simp [hk.symm]
      · simp only [lookupA, hk, if_false] at h
        simp [ih h]

theorem mem_mapSetR_elim (m : List (ReactionE × String)) (r : ReactionE) (o : String)
    (q : ReactionE × String) (h : q ∈ mapSetR m r o) : q ∈ m ∨ q = (r, o) := by
  simp only [mapSetR] at h
  split at h
  · rcases List.mem_map.1 h with ⟨p, hp, hq⟩
    by_cases hrid : (p.1.rid == r.rid) = true
    · rw [if_pos hrid] at hq
      exact Or.inr hq.symm
    · rw [if_neg hrid] at hq
      exact Or.inl (hq ▸ hp)
  · rcases List.mem_append.1 h with hq | hq
    · exact Or.inl hq
    · exact Or.inr (by simpa using hq)

theorem mem_innerFold_elim (ps : List (String × ReactionE)) :
    ∀ (m : List (ReactionE × String)) (q : ReactionE × String),
      q ∈ ps.foldl (fun m2 p => mapSetR m2 p.2 p.1) m →
      q ∈ m ∨ ∃ p ∈ ps, q = (p.2, p.1) := by
  induction ps with
  | nil => intro m q h; exact Or.inl h
  | cons p rest ih =>
      intro m q h
      rcases ih (mapSetR m p.2 p.1) q h with hq | ⟨p2, hp2, hq⟩
      · rcases mem_mapSetR_elim m p.2 p.1 q hq with hq2 | hq2
        · exact Or.inl hq2
        · exact Or.inr ⟨p, List.mem_cons_self p rest, hq2⟩
      · exact Or.inr ⟨p2, List.mem_cons_of_mem p hp2, hq⟩

theorem mem_reactionsToTrigger_elim (schema : SchemaE) (cs : List String)
    (q : ReactionE × String) (h : q ∈ reactionsToTrigger schema cs) :
    ∃ c ∈ cs, (q.2, q.1) ∈ depsFor schema c := by
  have main : ∀ (cs2 : List String) (m : List (ReactionE × String)),
      q ∈ cs2.foldl
        (fun m c => (depsFor schema c).foldl (fun m2 p => mapSetR m2 p.2 p.1) m) m →
      q ∈ m ∨ ∃ c ∈ cs2, (q.2, q.1) ∈ depsFor schema c := by
    intro cs2
    induction cs2 with
    | nil => intro m h2; exact Or.inl h2
    | cons c rest ih =>
        intro m h2
        rcases ih _ h2 with hq | ⟨c2, hc2, hq⟩
        · rcases mem_innerFold_elim (depsFor schema c) m q hq with hq2 | ⟨p, hp, hq2⟩
          · exact Or.inl hq2
          · refine Or.inr ⟨c, List.mem_cons_self c rest, ?_⟩
            rw [hq2]
            exact hp
        · exact Or.inr ⟨c2, List.mem_cons_of_mem c hc2, hq⟩
  rcases main cs [] h with hq | hq
  · simp at hq
  · exact hq

theorem trigger_entry_owner_mem (cfg : RunConfig) (cs : List String)
    (q : ReactionE × String) (h : q ∈ reactionsToTrigger cfg.schema cs) :
    q.2 ∈ fieldsOf cfg := by
  obtain ⟨c, _, hdep⟩ := mem_reactionsToTrigger_elim cfg.schema cs q h
  obtain ⟨fs, hfs, _, _⟩ :=
    (mem_collectReactions cfg.schema c q.2 q.1).1 ((mem_depsFor cfg.schema c q.2 q.1).1 hdep)
  exact List.mem_map.2 ⟨(q.2, fs), hfs, rfl⟩

theorem handleValidField_intents (st : EngineState) (f : String) (v : Value)
    (stk : List String) (sup : Bool) :
    (handleValidField st f v stk sup).2 = [] ∨
    (handleValidField st f v stk sup).2 = [⟨f, stk⟩] := by
  simp only [handleValidField]
  split
  · split
    · exact Or.inr rfl
    · exact Or.inl rfl
  · exact Or.inl rfl

theorem updateFieldCore_intents (cfg : RunConfig) (rs : RunState) (f : String)
    (v : Value) (stack : List String) (sup : Bool) :
    (updateFieldCore cfg rs f v stack sup).2.1 = [] ∨
    (updateFieldCore cfg rs f v stack sup).2.1 = [⟨f, stack⟩] := by
  cases hs : lookupA cfg.schema f with
  | none => exact Or.inl (by simp [updateFieldCore, hs])
  | some fs =>
      rw [updateFieldCore_eq cfg rs f v stack sup fs hs]
      simp only [updateFieldPost]
      split
      · exact Or.inl rfl
      · split
        · simpa using handleValidField_intents _ f _ stack sup
        · exact Or.inl rfl

/-- Termination of the propagation chain: because `triggerReactionsForFields`
refuses any owner already on the propagation stack, every stack the engine
builds is almost-duplicate-free over the declared fields, so chains are
bounded and a finite fuel suffices. The bound decreases as the stack
grows. -/
theorem execRS_update_terminates (cfg : RunConfig) (hnd : (fieldsOf cfg).Nodup) :
    ∀ (d : ℕ) (stack : List String) (field : String),
      AlmostNodup (stack ++ [field]) → (∀ x ∈ stack, x ∈ fieldsOf cfg) →
      2 * (fieldsOf cfg).length + 1 ≤ stack.length + d →
      ∃ fuel, ∀ (rs : RunState) (value : Value) (suppress : Bool),
        (execRS fuel cfg rs (.update field value stack suppress)).isSome := by
  intro d
  induction d with
  | zero =>
      intro stack field had hsub hlen
      exfalso
      have hadS : AlmostNodup stack := ad_append_right stack field had
      have := ad_length_le stack (fieldsOf cfg) hnd hadS hsub
      omega
  | succ d ih =>
      intro stack field had hsub hlen
      cases hs : lookupA cfg.schema field with
      | none =>
          refine ⟨1, fun rs value suppress => ?_⟩
          rw [execRS_update_eq]
          simp [updateFieldCore, hs]
      | some fs =>
          have hfield : field ∈ fieldsOf cfg := lookupA_some_mem cfg.schema field fs hs
          have htrig : ∀ (entries : List (ReactionE × String)),
              (∀ q ∈ entries, q.2 ∈ fieldsOf cfg) →
              ∃ fuel, ∀ rs,
                (execRS fuel cfg rs (.triggerList entries [field] stack)).isSome := by
            intro entries
            induction entries with
            | nil =>
                intro _
                exact ⟨1, fun rs => by rw [execRS_trigger_nil]; simp⟩
            | cons q rest ihe =>
                intro hq
                obtain ⟨r, o⟩ := q
                obtain ⟨fuelR, hR⟩ := ihe (fun q2 hq2 => hq q2 (List.mem_cons_of_mem _ hq2))
                by_cases ho : o ∈ stack
                · refine ⟨fuelR + 1, fun rs => ?_⟩
                  rw [execRS_trigger_cons, if_pos ho]
                  exact hR _
                · by_cases hd0 : cfg.debounce > 0
                  · refine ⟨fuelR + 1, fun rs => ?_⟩
                    rw [execRS_trigger_cons, if_neg ho]
                    simp only [hd0, if_true]
                    exact hR _
                  · have hofld : o ∈ fieldsOf cfg := hq (r, o) (List.mem_cons_self _ _)
                    have hadO : AlmostNodup ((stack ++ [field]) ++ [o]) := by
                      have := ad_extend stack field o had ho
                      simpa [List.append_assoc] using this
                    have hsub2 : ∀ x ∈ stack ++ [field], x ∈ fieldsOf cfg := by
                      intro x hx
                      rcases List.mem_append.1 hx with hx | hx
                      · exact hsub x hx
                      · simpa using (by simpa using hx : x = field) ▸ hfield
                    have hlen2 : 2 * (fieldsOf cfg).length + 1
                        ≤ (stack ++ [field]).length + d := by
                      simp only [List.length_append, List.length_cons, List.length_nil]
                      omega
                    obtain ⟨fuelU, hU⟩ := ih (stack ++ [field]) o hadO hsub2 hlen2
                    have hP : ∀ rs,
                        (execRS (fuelU + 1) cfg rs (.process o r (stack ++ [field]))).isSome := by
                      intro rs
                      rw [execRS_process_eq]
                      obtain ⟨x, hx⟩ := Option.isSome_iff_exists.1
                        (hU { rs with st := (gatherDeps rs.st o r.fields).2 }
                          (r.computed (gatherDeps rs.st o r.fields).1) false)
                      simp only []
                      rw [hx]
                      cases r.action <;> simp
                    refine ⟨max (fuelU + 1) fuelR + 1, fun rs => ?_⟩
                    rw [execRS_trigger_cons, if_neg ho]
                    simp only [hd0, if_false]
                    obtain ⟨y, hy⟩ := Option.isSome_iff_exists.1
                      (hP { rs with timers := rs.timers.filter (fun t => !(t.1 == r.rid)) })
                    rw [execRS_mono (fuelU + 1) cfg _ _ y hy _ (le_max_left _ _)]
                    obtain ⟨rs3, b⟩ := y
                    obtain ⟨z, hz⟩ := Option.isSome_iff_exists.1 (hR rs3)
                    show (execRS (max (fuelU + 1) fuelR) cfg rs3
                      (.triggerList rest [field] stack)).isSome = true
                    rw [execRS_mono fuelR cfg rs3 _ z hz _ (le_max_right _ _)]
                    simp
          obtain ⟨fuelT, hT⟩ := htrig (reactionsToTrigger cfg.schema [field])
            (fun q hq => trigger_entry_owner_mem cfg [field] q hq)
          refine ⟨fuelT + 1, fun rs value suppress => ?_⟩
          rw [execRS_update_eq]
          simp only []
          rcases updateFieldCore_intents cfg rs field value stack suppress with hint | hint
          · simp [hint]
          · simp only [hint]
            obtain ⟨z, hz⟩ := Option.isSome_iff_exists.1
              (hT (updateFieldCore cfg rs field value stack suppress).1)
            rw [hz]
            obtain ⟨rs2, b⟩ := z
            simp

/-- A rational with denominator 1 built without normalization, used as the
request-id oracle in concrete runs. -/
def natId (n : ℕ) : ℚ := ⟨n, 1, one_ne_zero, Nat.coprime_one_right _⟩

/-- Scenario S5's schema: two mutually-dependent reactions (`x` computed
from `[y]`, `y` computed from `[x]`). -/
def cycSchema : SchemaE :=
  [("x", ⟨"string", none, some (.vStr ""), none, [⟨1, ["y"], fun _ => .vStr "x1", none⟩]⟩),
   ("y", ⟨"string", none, some (.vStr ""), none, [⟨2, ["x"], fun _ => .vStr "y1", none⟩]⟩)]

/-- Scenario S5's configuration. -/
def cycCfg : RunConfig := ⟨cycSchema, 0, 5000, false, natId⟩

/-- Scenario S5's run: `setField("x", "go")` on the cyclic schema. -/
def cycRun : Option (RunState × Bool) :=
  execRS 20 cycCfg (initRun cycCfg) (.update "x" (.vStr "go") [] false)

/-- C5. For every schema (cyclic or not) with distinct declared fields, any
`setField` call terminates: the propagation-stack check refuses a reaction
whose owner field is already on the stack instead of recursing, so a
finite fuel always suffices. On the two mutually-dependent-reaction
schema, a single set produces exactly one `CIRCULAR_DEPENDENCY` error,
raised on the second hop (after both commits, as the event order shows),
whose message is the joined path of visited fields followed by the refused
owner (`Circular dependency detected: x -> x`), and the run quiesces with
no pending timer. -/
theorem c5_cycle_termination_single_error :
    (∀ cfg : RunConfig, (fieldsOf cfg).Nodup →
      ∀ field : String, ∃ fuel, ∀ (rs : RunState) (value : Value),
        (execRS fuel cfg rs (.update field value [] false)).isSome) ∧
    cycRun.isSome = true ∧
    cycRun.map (fun p => p.1.st.appErrors)
      = some [⟨.circularDependency, some "x", "Circular dependency detected: x -> x"⟩] ∧
    cycRun.map (fun p => p.1.st.events.map EmittedEvent.name)
      = some ["field:change", "field:change", "reaction:error"] ∧
    cycRun.map (fun p => p.1.timers) = some [] := by
  refine ⟨?_, rfl, rfl, rfl, rfl⟩
  intro cfg hnd field
  obtain ⟨fuel, hf⟩ := execRS_update_terminates cfg hnd
    (2 * (fieldsOf cfg).length + 1) [] field (ad_single field) (by simp) (by simp)
  exact ⟨fuel, fun rs value => hf rs value false⟩

/-- C5 (witness). The general termination clause instantiated at the
cyclic schema. -/
theorem c5_witness :
    ∃ fuel, ∀ (rs : RunState) (value : Value),
      (execRS fuel cycCfg rs (.update "x" value [] false)).isSome :=
  c5_cycle_termination_single_error.1 cycCfg (by decide) "x"

/-- The polling loop of `ReactionSystem.settled`: `check()` reads
`this.reactionTimeouts.size` at successive poll instants and resolves at
the first instant where the size is `0`, re-arming a 10 ms timer
otherwise. `sizes k` is the size observed at the `k`-th poll; the result
is the poll index at which the promise resolves. -/
def settledPoll (sizes : ℕ → ℕ) : ℕ → ℕ → Option ℕ
  | 0, _ => none
  | fuel + 1, k => if sizes k = 0 then some k else settledPoll sizes fuel (k + 1)

/-- A microtask of the event loop: the resumption of `updateField` after
its validation await (running `updateFieldPost` and fanning out), or the
user continuation that calls `settled()` once the first `setField`
resolved. -/
inductive MTask where
  | updatePost (field : String) (tv : Value) (reqId : ℚ) (verdict : Bool)
      (stack : List String) (clearTimerId : Option ℕ) (thenSettled : Bool)
  | callSettled

/-- A macrotask (timer callback): the async validator's promise settling
(which wins its race and clears the companion timeout timer), the
validation timeout rejecting, or the `setTimeout(0)` with which
`ModelManager.settled` yields one macrotask after the reaction system's
settle promise resolved. -/
inductive TTask where
  | validatorResolve (field : String) (tv : Value) (reqId : ℚ) (b : Bool)
      (stack : List String) (timeoutTimerId : ℕ)
  | validationTimeout (field : String) (tv : Value) (reqId : ℚ)
      (stack : List String)
  | settledDone

/-- Event-loop state: current time, the ModelManager state, the microtask
queue, the pending timers `(fireAt, timerId, task)`, fresh-id counters,
the fields with a started but uncommitted `updateField` call (in-flight
commits), the reaction system's debounce-timer set (empty throughout a
`debounceReactions: 0` run), and the observation recorded at the moment
the `settled()` future resolves: the time, the `data` snapshot, and the
in-flight commits at that moment. -/
structure SchedState where
  now : ℕ
  st : EngineState
  micro : List MTask
  timers : List (ℕ × ℕ × TTask)
  nextTimerId : ℕ
  idCounter : ℕ
  inFlight : List String
  debounceTimers : List ℕ
  settledObs : Option (ℕ × List (String × Value) × List String)

/-- The C3 scenario schema: `a` with no validator; `b` with an async
validator resolving `true` after 50 ms (against the 5000 ms default
timeout) and a reaction over `[a]`. -/
def c3Schema : SchemaE :=
  [("a", ⟨"string", none, some (.vStr ""), none, []⟩),
   ("b", ⟨"string", some [⟨"async", "msg", some (fun _ => .asyncResolves true 50)⟩],
     some (.vStr ""), none, [⟨1, ["a"], fun _ => .vStr "B", none⟩]⟩)]

/-- The synchronous prefix of `updateField(field, value)` under the event
loop: draw the request id, store it, clear the field's errors, and start
validation. A field with no validators produces an already-settled
validation whose await resumes as a microtask; the async validator starts
its promise (a timer at its settle time) racing a timeout timer at
`now + 5000`. The call is in flight until its post-await phase commits. -/
def startUpdateC3 (s : SchedState) (field : String) (value : Value)
    (stack : List String) (thenSettled : Bool) : SchedState :=
  match lookupA c3Schema field with
  | none => s
  | some fs =>
      let reqId := natId s.idCounter
      let st0 := { s.st with
        validationRequestIds := setA s.st.validationRequestIds field reqId,
        validationErrors := setA s.st.validationErrors field [] }
      let s1 : SchedState := { s with
        st := st0, idCounter := s.idCounter + 1, inFlight := s.inFlight ++ [field] }
      match fs.validator with
      | none =>
          { s1 with micro := s1.micro
              ++ [.updatePost field value reqId true stack none thenSettled] }
      | some vals =>
          match vals with
          | [v] =>
              match v.validate with
              | some pred =>
                  match pred value with
                  | .asyncResolves b t =>
                      let n1 := s1.nextTimerId
                      let n2 := s1.nextTimerId + 1
                      { s1 with
                        timers := s1.timers
                          ++ [(s1.now + t, n1, .validatorResolve field value reqId b stack n2),
                              (s1.now + 5000, n2, .validationTimeout field value reqId stack)],
                        nextTimerId := s1.nextTimerId + 2 }
                  | _ => s1
              | none =>
                  { s1 with micro := s1.micro
                      ++ [.updatePost field value reqId true stack none thenSettled] }
          | _ => s1

/-- Run one microtask. An `updatePost` clears the validator's companion
timeout timer (the `clearTimeout` on the race's success path), runs the
post-await phase `updateFieldPost`, removes the call from the in-flight
set, and interprets its fan-out intent: with `debounceReactions: 0` each
scheduled reaction runs `processReaction` synchronously — gather
dependency values, compute, and start the inner `setValue` commit (a
fresh `updateField` which suspends at its own validation). `callSettled`
models `ModelManager.settled`: `reactionSystem.settled()` returns
immediately when the debounce-timer set is empty, after which the manager
awaits `setTimeout(resolve, 0)`, a timer at `now + 0`. -/
def execMicroC3 (s : SchedState) (m : MTask) : SchedState :=
  match m with
  | .updatePost field tv reqId verdict stack clearId thenSettled =>
      let s0 := match clearId with
        | some cid => { s with timers := s.timers.filter (fun u => !(u.2.1 == cid)) }
        | none => s
      let r := updateFieldPost s0.st field tv reqId verdict stack false
      let s1 : SchedState := { s0 with
        st := r.1, inFlight := s0.inFlight.filter (fun f => !(f == field)) }
      let s2 := r.2.1.foldl
        (fun sAcc intent =>
          let sched := triggerSchedule c3Schema [intent.field] intent.stack
          let sErr : SchedState := { sAcc with st := sched.2.foldl triggerAppError sAcc.st }
          sched.1.foldl
            (fun s3 q =>
              let g := gatherDeps s3.st q.1 q.2.fields
              let cval := q.2.computed g.1
              startUpdateC3 { s3 with st := g.2 } q.1 cval
                (intent.stack ++ [intent.field]) false)
            sErr)
        s1
      if thenSettled then { s2 with micro := s2.micro ++ [.callSettled] } else s2
  | .callSettled =>
      if s.debounceTimers.isEmpty then
        { s with
          timers := s.timers ++ [(s.now + 0, s.nextTimerId, .settledDone)],
          nextTimerId := s.nextTimerId + 1 }
      else s

/-- Fire one timer: a validator promise settling resumes the awaiting
`updateField` as a microtask (carrying the timeout timer to clear); a
validation timeout records the timeout error and resumes with verdict
`false`; `settledDone` resolves the `settled()` future, recording the
observation of that moment. -/
def execTimerC3 (s : SchedState) (t : TTask) : SchedState :=
  match t with
  | .validatorResolve field tv reqId b stack n2 =>
      { s with micro := s.micro ++ [.updatePost field tv reqId b stack (some n2) false] }
  | .validationTimeout field tv reqId stack =>
      let fx := handleExceptionErrorFx field ("Validation timeout: " ++ field)
      let newErrs := setA s.st.validationErrors field
        ((lookupA s.st.validationErrors field).getD [] ++ fx.1)
      let st1 := { s.st with validationErrors := newErrs }
      let st2 := fx.2.foldl triggerAppError st1
      { s with
        st := st2,
        micro := s.micro ++ [.updatePost field tv reqId false stack none false] }
  | .settledDone => { s with settledObs := some (s.now, s.st.data, s.inFlight) }

/-- The earliest pending timer, by fire time then registration order. -/
def earliestTimer (ts : List (ℕ × ℕ × TTask)) : Option (ℕ × ℕ × TTask) :=
  ts.foldl
    (fun acc t =>
      match acc with
      | none => some t
      | some u => if t.1 < u.1 ∨ (t.1 = u.1 ∧ t.2.1 < u.2.1) then some t else some u)
    none

/-- One event-loop step: drain the microtask queue first; otherwise fire
the earliest timer, advancing the clock to its fire time. -/
def stepC3 (s : SchedState) : SchedState :=
  match s.micro with
  | m :: rest => execMicroC3 { s with micro := rest } m
  | [] =>
      match earliestTimer s.timers with
      | none => s
      | some u =>
          execTimerC3
            { s with now := u.1, timers := s.timers.filter (fun w => !(w.2.1 == u.2.1)) }
            u.2.2

/-- Iterate the event loop. -/
def runC3 : ℕ → SchedState → SchedState
  | 0, s => s
  | n + 1, s => runC3 n (stepC3 s)

/-- The initial scheduler state: defaults committed, queues empty. -/
def c3Init : SchedState :=
  ⟨0,
   { EngineState.empty with
      data := c3Schema.foldl
        (fun acc e =>
          match e.2.defaultVal with
          | some v => setA acc e.1 v
          | none => acc) [] },
   [], [], 0, 0, [], [], none⟩

/-- The C3 run: `setField("a", "go")`, whose resolution calls
`settled()`. -/
def c3Final : SchedState := runC3 12 (startUpdateC3 c3Init "a" (.vStr "go") [] true)

/-- C3 (counterexample). When the `settled()` future resolves (at time 0,
before the 50 ms validator of the reaction's commit), the async `setField`
commit started by the reaction on `b` is still in flight and the snapshot
read of `b` is still the default; the commit lands afterwards (`b` ends as
`B`). So resolution of `settled()` does not imply that reaction-started
commits are finished, nor that subsequent reads observe quiescent state. -/
theorem c3_counterexample :
    c3Final.settledObs
      = some (0, [("a", .vStr "go"), ("b", .vStr "")], ["b"]) ∧
    lookupA c3Final.st.data "b" = some (.vStr "B") ∧
    c3Final.inFlight = [] := by
  exact ⟨rfl, rfl, rfl⟩

/-- C3 (amended). `ReactionSystem.settled` resolves only at a poll instant
at which it observed the debounce-timer map empty (`reactionTimeouts.size
=== 0`), and `ModelManager.settled` then yields a single macrotask; but no
in-flight reaction future is tracked, so an async `setField` commit
started by a reaction may still be in flight when `settled()` resolves,
and a subsequent read can observe its later commit: in the scenario run,
`settled()` resolves at time 0 with the commit of `b` in flight and `b`
still at its default, and `b` becomes `B` afterwards. -/
theorem c3_settled_only_observes_timers (sizes : ℕ → ℕ) (fuel k j : ℕ)
    (hres : settledPoll sizes fuel k = some j) :
    sizes j = 0 ∧
    c3Final.settledObs = some (0, [("a", .vStr "go"), ("b", .vStr "")], ["b"]) ∧
    lookupA c3Final.st.data "b" = some (.vStr "B") := by
  refine ⟨?_, rfl, rfl⟩
  induction fuel generalizing k with
  | zero => simp [settledPoll] at hres
  | succ n ih =>
      by_cases h0 : sizes k = 0
      · simp only [settledPoll, h0, if_pos] at hres
        simp only [Option.some.injEq] at hres
        exact hres ▸ h0
      · simp only [settledPoll, h0, if_neg, if_false] at hres
        exact ih (k + 1) hres

/-- C3 (witness). Concrete instantiation: a poll stream observing size 0
at the first poll resolves there, and the scenario facts hold. -/
theorem c3_witness :
    (fun _ : ℕ => (0 : ℕ)) 0 = 0 ∧
    c3Final.settledObs = some (0, [("a", .vStr "go"), ("b", .vStr "")], ["b"]) ∧
    lookupA c3Final.st.data "b" = some (.vStr "B") :=
  c3_settled_only_observes_timers (fun _ => 0) 1 0 0 rfl

end ModelReaction
